import Mathlib

/-!
Verification development for the turl/xurl repository: a shallow embedding of
the address parser (`xurl-core/src/uri.rs`), the line-delimited event reader
(`xurl-core/src/jsonl.rs`), the per-provider resolvers (codex.rs, claude.rs,
gemini.rs, opencode.rs, amp.rs), the message extractors
(`turl-core/src/render.rs`) and the write adapters, together with theorems
about the properties the specification states for them.

Rust `String`s are modelled as `List Char` (unicode scalar sequences); raw
byte strings as `List Nat`.  Fallible Rust functions returning `Result`
become `Except`; external collaborators (the serde JSON parser, the
filesystem, the process exit status) become explicit parameters of the
embedded functions.
-/

set_option maxHeartbeats 1000000

/-- Model of a Rust `String` / `&str`: its list of unicode scalar values. -/
abbrev Str := List Char

/-- Convert a Lean string literal to the model type. -/
def strOf (s : String) : Str := s.toList

/-- `u8::to_ascii_lowercase` on one character (ASCII-only lowering). -/
def lowerChar (c : Char) : Char :=
  if 'A' ≤ c ∧ c ≤ 'Z' then Char.ofNat (c.toNat + 32) else c

/-- `str::to_ascii_lowercase`. -/
def lowerStr (s : Str) : Str := s.map lowerChar

/-- Rust `char::is_whitespace`: the Unicode White_Space property. -/
def isRustWs (c : Char) : Bool :=
  (0x09 ≤ c.toNat ∧ c.toNat ≤ 0x0d) ∨ c.toNat = 0x20 ∨ c.toNat = 0x85 ∨
    c.toNat = 0xa0 ∨ c.toNat = 0x1680 ∨
    (0x2000 ≤ c.toNat ∧ c.toNat ≤ 0x200a) ∨ c.toNat = 0x2028 ∨
    c.toNat = 0x2029 ∨ c.toNat = 0x202f ∨ c.toNat = 0x205f ∨ c.toNat = 0x3000

/-- `str::trim_start`. -/
def trimLeftStr (s : Str) : Str := s.dropWhile isRustWs

/-- `str::trim_end`. -/
def trimRightStr (s : Str) : Str := (s.reverse.dropWhile isRustWs).reverse

/-- `str::trim`: drop whitespace from both ends. -/
def trimStr (s : Str) : Str := trimLeftStr (trimRightStr s)

/-- `str::split_once(sep)` for a one-character separator: split at the first
occurrence, or `none` when the separator does not occur. -/
def splitOnce (sep : Char) : Str → Option (Str × Str)
  | [] => none
  | c :: rest =>
    if c = sep then some ([], rest)
    else (splitOnce sep rest).map (fun pr => (c :: pr.1, pr.2))

/-- `str::split_once("://")`: split at the first occurrence of `://`. -/
def splitScheme : Str → Option (Str × Str)
  | ':' :: '/' :: '/' :: rest => some ([], rest)
  | c :: rest => (splitScheme rest).map (fun pr => (c :: pr.1, pr.2))
  | [] => none

/-- Rust `str::split(sep)`: the full list of separated segments (always
non-empty; empty segments are kept, matching Rust's iterator). -/
def splitAll (sep : Char) : Str → List Str
  | [] => [[]]
  | c :: rest =>
    let parts := splitAll sep rest
    if c = sep then [] :: parts
    else
      match parts with
      | p :: ps => (c :: p) :: ps
      | [] => [[c]]

/-- `str::starts_with` for a string pattern. -/
def strStarts : Str → Str → Bool
  | [], _ => true
  | _ :: _, [] => false
  | c :: p, d :: s => c = d && strStarts p s

/-- `str::ends_with` for a string pattern. -/
def strEnds (suf s : Str) : Bool := strStarts suf.reverse s.reverse

/-- `str::strip_prefix`: `some` remainder when the pattern is a prefix. -/
def stripPre (pre s : Str) : Option Str :=
  if strStarts pre s then some (s.drop pre.length) else none

/-- Decimal rendering of a natural number (Rust `usize` display). -/
def natStr (n : Nat) : Str := (toString n).toList

/-! ### Provider-specific id grammars (the regexes of `uri.rs`) -/

/-- One character of `[0-9a-f]` under the `(?i)` flag. -/
def hexDigitB (c : Char) : Bool :=
  ('0' ≤ c ∧ c ≤ '9') ∨ ('a' ≤ c ∧ c ≤ 'f') ∨ ('A' ≤ c ∧ c ≤ 'F')

/-- Consume exactly `n` hex characters, returning the remainder. -/
def hexTake : Nat → Str → Option Str
  | 0, rest => some rest
  | _ + 1, [] => none
  | n + 1, c :: rest => if hexDigitB c then hexTake n rest else none

/-- Consume a literal dash. -/
def dashTake : Str → Option Str
  | '-' :: rest => some rest
  | _ => none

/-- Consume the UUID pattern `[0-9a-f]{8}-{4}-{4}-{4}-{12}` (case
insensitive), returning the remainder. -/
def uuidTake (s : Str) : Option Str :=
  hexTake 8 s >>= dashTake >>= hexTake 4 >>= dashTake >>= hexTake 4 >>=
    dashTake >>= hexTake 4 >>= dashTake >>= hexTake 12

/-- `SESSION_ID_RE`: the anchored case-insensitive UUID regex. -/
def uuidShape (s : Str) : Bool :=
  match uuidTake s with
  | some [] => true
  | _ => false

/-- `AMP_SESSION_ID_RE`: `(?i)^t-<uuid>$`. -/
def ampShape : Str → Bool
  | c :: '-' :: rest => (c = 't' ∨ c = 'T') && uuidShape rest
  | _ => false

/-- One `[0-9A-Za-z]` character. -/
def alnumB (c : Char) : Bool :=
  ('0' ≤ c ∧ c ≤ '9') ∨ ('a' ≤ c ∧ c ≤ 'z') ∨ ('A' ≤ c ∧ c ≤ 'Z')

/-- `OPENCODE_SESSION_ID_RE`: `^ses_[0-9A-Za-z]+$`. -/
def opShape : Str → Bool
  | 's' :: 'e' :: 's' :: '_' :: rest => !rest.isEmpty && rest.all alnumB
  | _ => false

/-- `PI_SHORT_ENTRY_ID_RE`: `(?i)^[0-9a-f]{8}$`. -/
def piShortShape (s : Str) : Bool :=
  match hexTake 8 s with
  | some [] => true
  | _ => false


/-! ### UTF-8 byte model (used by `percent_decode` / `String::from_utf8`) -/

/-- UTF-8 encoding of one unicode scalar value. -/
def utf8EncodeChar (n : Nat) : List Nat :=
  if n < 0x80 then [n]
  else if n < 0x800 then [0xc0 + n / 64, 0x80 + n % 64]
  else if n < 0x10000 then [0xe0 + n / 4096, 0x80 + n / 64 % 64, 0x80 + n % 64]
  else [0xf0 + n / 262144, 0x80 + n / 4096 % 64, 0x80 + n / 64 % 64, 0x80 + n % 64]

/-- The UTF-8 byte sequence of a string (Rust `str::as_bytes`). -/
def strBytes (s : Str) : List Nat := (s.map (fun c => utf8EncodeChar c.toNat)).flatten

/-- Is this a UTF-8 continuation byte? -/
def contB (b : Nat) : Bool := 0x80 ≤ b ∧ b < 0xc0

/-- UTF-8 decoding with full validation (Rust `String::from_utf8`). -/
def utf8Decode : List Nat → Option Str
  | [] => some []
  | b :: rest =>
    if b < 0x80 then (utf8Decode rest).map (fun cs => Char.ofNat b :: cs)
    else if b < 0xc2 then none
    else if b < 0xe0 then
      match rest with
      | b1 :: r =>
        if contB b1 then
          (utf8Decode r).map (fun cs => Char.ofNat ((b - 0xc0) * 64 + (b1 - 0x80)) :: cs)
        else none
      | [] => none
    else if b < 0xf0 then
      match rest with
      | b1 :: b2 :: r =>
        let n := (b - 0xe0) * 4096 + (b1 - 0x80) * 64 + (b2 - 0x80)
        if contB b1 && contB b2 && decide (0x800 ≤ n) &&
            !(decide (0xd800 ≤ n) && decide (n < 0xe000)) then
          (utf8Decode r).map (fun cs => Char.ofNat n :: cs)
        else none
      | _ => none
    else if b < 0xf5 then
      match rest with
      | b1 :: b2 :: b3 :: r =>
        let n := (b - 0xf0) * 262144 + (b1 - 0x80) * 4096 + (b2 - 0x80) * 64 + (b3 - 0x80)
        if contB b1 && contB b2 && contB b3 && decide (0x10000 ≤ n) &&
            decide (n < 0x110000) then
          (utf8Decode r).map (fun cs => Char.ofNat n :: cs)
        else none
      | _ => none
    else none

/-! ### Percent decoding (`uri.rs::percent_decode` / `hex_value`) -/

/-- `hex_value` on one byte. -/
def hexValN (b : Nat) : Option Nat :=
  if 48 ≤ b ∧ b ≤ 57 then some (b - 48)
  else if 97 ≤ b ∧ b ≤ 102 then some (10 + b - 97)
  else if 65 ≤ b ∧ b ≤ 70 then some (10 + b - 65)
  else none

/-- The byte-level loop of `percent_decode`: replace `%HH` with one byte. -/
def pctBytes : List Nat → Option (List Nat)
  | [] => some []
  | 37 :: rest =>
    match rest with
    | h1 :: h2 :: r => do
      let a ← hexValN h1
      let b ← hexValN h2
      let t ← pctBytes r
      some ((a * 16 + b) :: t)
    | _ => none
  | b :: rest => (pctBytes rest).map (fun t => b :: t)

/-- `percent_decode`: byte-level `%HH` replacement then UTF-8 validation. -/
def percentDecode (s : Str) : Option Str := pctBytes (strBytes s) >>= utf8Decode

/-! ### The address data model (`uri.rs` / `model.rs`) -/

/-- `ProviderKind`. -/
inductive PKind
  | amp
  | codex
  | claude
  | gemini
  | pi
  | opencode
deriving DecidableEq, Repr

/-- `Display for ProviderKind`. -/
def provName : PKind → Str
  | .amp => strOf ("amp")
  | .codex => strOf ("codex")
  | .claude => strOf ("claude")
  | .gemini => strOf ("gemini")
  | .pi => strOf ("pi")
  | .opencode => strOf ("opencode")

/-- The `XurlError` variants exercised by the embedded code.  Error payloads
that Rust renders lazily (io/serde sources) are carried as strings. -/
inductive XErr
  | invalidUri (input : Str)
  | unsupportedScheme (scheme : Str)
  | invalidSessionId (token : Str)
  | threadNotFound (provider : Str) (session_id : Str) (searchedRoots : List (List Str))
  | writeProtocol (msg : Str)
  | commandNotFound (command : Str)
  | commandFailed (command : Str) (code : Option Int) (stderr : Str)
  | invalidJsonLine (path : Str) (line : Nat) (source : Str)
  | ioErr (path : Str) (source : Str)
deriving DecidableEq, Repr

/-- `AgentsUri` (the ThreadAddress of the spec). -/
structure AgentsUri where
  provider : PKind
  session_id : Str
  agent_id : Option Str
  query : List (Str × Option Str)
deriving DecidableEq, Repr

/-- `parse_provider`. -/
def parseProviderK (scheme : Str) : Except XErr PKind :=
  if scheme = strOf ("amp") then .ok .amp
  else if scheme = strOf ("codex") then .ok .codex
  else if scheme = strOf ("claude") then .ok .claude
  else if scheme = strOf ("gemini") then .ok .gemini
  else if scheme = strOf ("pi") then .ok .pi
  else if scheme = strOf ("opencode") then .ok .opencode
  else .error (.unsupportedScheme scheme)

/-- The pair-collection loop of `parse_query`. -/
def parseQueryPairs (full : Str) : List Str → Except XErr (List (Str × Option Str))
  | [] => .ok []
  | pair :: rest =>
    if pair.isEmpty then parseQueryPairs full rest
    else
      let kv := match splitOnce '=' pair with
        | some (k, v) => (k, some v)
        | none => (pair, none)
      match percentDecode kv.1 with
      | none => .error (.invalidUri full)
      | some key =>
        if key.isEmpty then .error (.invalidUri full)
        else
          match kv.2 with
          | none => (parseQueryPairs full rest).map (fun q => (key, none) :: q)
          | some rv =>
            match percentDecode rv with
            | none => .error (.invalidUri full)
            | some v => (parseQueryPairs full rest).map (fun q => (key, some v) :: q)

/-- `parse_query`. -/
def parseQuery (rawQuery : Option Str) (full : Str) :
    Except XErr (List (Str × Option Str)) :=
  match rawQuery with
  | none => .ok []
  | some rq => if rq.isEmpty then .ok [] else parseQueryPairs full (splitAll '&' rq)

/-- `parse_agents_target`. -/
def parseAgentsTarget (target full : Str) :
    Except XErr (PKind × Str × Option Str × Bool) :=
  let segments := splitAll '/' target
  let providerScheme := segments.headD []
  if providerScheme.isEmpty then .error (.invalidUri full)
  else
    match parseProviderK providerScheme with
    | .error e => .error e
    | .ok provider =>
      let remaining := segments.tail
      if remaining.any List.isEmpty then .error (.invalidUri full)
      else
        let remaining2 :=
          if provider = .codex ∧ remaining.length ≥ 2 ∧
              remaining.headD [] = strOf ("threads")
          then remaining.tail else remaining
        match remaining2 with
        | [] => .ok (provider, [], none, true)
        | [mainId] => .ok (provider, mainId, none, true)
        | [mainId, agentId] => .ok (provider, mainId, some agentId, true)
        | _ => .error (.invalidUri full)

/-- `parse_legacy_target`. -/
def parseLegacyTarget (scheme target full : Str) :
    Except XErr (PKind × Str × Option Str × Bool) :=
  match parseProviderK scheme with
  | .error e => .error e
  | .ok provider =>
    let normalized := match provider with
      | .amp => target
      | .codex => (stripPre (strOf ("threads/")) target).getD target
      | .claude | .gemini | .pi | .opencode => target
    let parts := splitAll '/' normalized
    let mainId := parts.headD []
    let agentId := parts[1]?
    if mainId.isEmpty ∨ parts.length > 2 ∨ agentId = some [] then
      .error (.invalidUri full)
    else .ok (provider, mainId, agentId, false)

/-- The session-id canonicalization step of `FromStr for AgentsUri`. -/
def canonSid (p : PKind) (raw : Str) : Str :=
  match p with
  | .amp => 'T' :: '-' :: lowerStr (raw.drop 2)
  | .codex | .claude | .gemini | .pi => lowerStr raw
  | .opencode => raw

/-- The agent-id canonicalization step of `FromStr for AgentsUri`. -/
def canonAgent (p : PKind) (a : Str) : Str :=
  if p = .amp ∧ ampShape a then 'T' :: '-' :: lowerStr (a.drop 2)
  else if ((p = .codex ∨ p = .gemini) ∧ uuidShape a) ∨
      (p = .pi ∧ (uuidShape a ∨ piShortShape a)) then lowerStr a
  else a

/-- Provider-specific session-id grammar check of `FromStr for AgentsUri`. -/
def sidGrammar (p : PKind) (raw : Str) : Bool :=
  match p with
  | .amp => ampShape raw
  | .codex | .claude | .gemini | .pi => uuidShape raw
  | .opencode => opShape raw

/-- Tail of `FromStr for AgentsUri` after target splitting: id validation,
canonicalization and construction. -/
def buildAgentsUri (provider : PKind) (rawId : Str) (rawAgentId : Option Str)
    (allowsCollection : Bool) (query : List (Str × Option Str)) (input : Str) :
    Except XErr AgentsUri :=
  if rawId.isEmpty then
    if !(allowsCollection && rawAgentId = none) then .error (.invalidUri input)
    else .ok ⟨provider, [], none, query⟩
  else if !sidGrammar provider rawId then .error (.invalidSessionId rawId)
  else if (provider == .amp) &&
      (match rawAgentId with | some a => !ampShape a | none => false) then
    .error (.invalidSessionId (rawAgentId.getD []))
  else
    let sessionId := canonSid provider rawId
    let agentId := rawAgentId.map (canonAgent provider)
    if (provider == .opencode) &&
        (match agentId with | some c => !opShape c | none => false) then
      .error (.invalidSessionId (agentId.getD []))
    else .ok ⟨provider, sessionId, agentId, query⟩

/-- `FromStr for AgentsUri` (`AgentsUri::parse`). -/
def parseAgentsUri (input : Str) : Except XErr AgentsUri :=
  let schemeSplit :=
    match splitScheme input with
    | some (s, t) => (some s, t)
    | none => (none, input)
  let targetSplit :=
    match splitOnce '?' schemeSplit.2 with
    | some (t, q) => (t, some q)
    | none => (schemeSplit.2, none)
  match parseQuery targetSplit.2 input with
  | .error e => .error e
  | .ok query =>
    let parsedTarget :=
      match schemeSplit.1 with
      | some s =>
        if s = strOf ("agents") then parseAgentsTarget targetSplit.1 input
        else parseLegacyTarget s targetSplit.1 input
      | none => parseAgentsTarget targetSplit.1 input
    match parsedTarget with
    | .error e => .error e
    | .ok (provider, rawId, rawAgentId, allowsCollection) =>
      buildAgentsUri provider rawId rawAgentId allowsCollection query input

/-- `AgentsUri::is_collection`. -/
def isCollectionU (u : AgentsUri) : Bool :=
  u.session_id.isEmpty && u.agent_id = none

/-- `AgentsUri::as_agents_string`. -/
def asAgentsStringU (u : AgentsUri) : Str :=
  if isCollectionU u then strOf ("agents://") ++ provName u.provider
  else
    match u.agent_id with
    | some agentId =>
      strOf ("agents://") ++ provName u.provider ++ '/' :: u.session_id ++
        '/' :: agentId
    | none => strOf ("agents://") ++ provName u.provider ++ '/' :: u.session_id

/-- `AgentsUri::as_string` (the scheme-qualified legacy family). -/
def asStringU (u : AgentsUri) : Str :=
  if isCollectionU u then asAgentsStringU u
  else
    match u.agent_id with
    | some agentId =>
      provName u.provider ++ strOf ("://") ++ u.session_id ++ '/' :: agentId
    | none => provName u.provider ++ strOf ("://") ++ u.session_id

/-! ### JSON values (`serde_json::Value`) -/

/-- Model of `serde_json::Value`.  Numbers are carried as integers; no
embedded code path converts a number to text, so the numeric payload is
inert. -/
inductive Json
  | null
  | bool (b : Bool)
  | num (n : Int)
  | str (s : Str)
  | arr (xs : List Json)
  | obj (fields : List (Str × Json))

/-- `Value::get(key)` (first matching field of an object). -/
def Json.getF : Json → Str → Option Json
  | .obj fields, key => lookupF fields key
  | _, _ => none
where
  /-- association-list lookup -/
  lookupF : List (Str × Json) → Str → Option Json
    | [], _ => none
    | (k, v) :: rest, key => if k = key then some v else lookupF rest key

/-- `Value::as_str`. -/
def Json.asStr : Json → Option Str
  | .str s => some s
  | _ => none

/-- `Value::as_bool`. -/
def Json.asBool : Json → Option Bool
  | .bool b => some b
  | _ => none

/-- `Value::as_array`. -/
def Json.asArr : Json → Option (List Json)
  | .arr xs => some xs
  | _ => none

/-- `v.get(key).and_then(Value::as_str)`. -/
def getStr (v : Json) (key : Str) : Option Str := (v.getF key).bind Json.asStr

/-- The type of the external serde parser: embedded code never inspects it,
so it is a parameter of every function that calls `serde_json::from_str`. -/
abbrev JParse := Str → Except Str Json

/-! ### The line-delimited event reader (`jsonl.rs`) -/

/-- `parse_json_line`: blank lines are skipped, other lines must parse. -/
def parseJsonLine (fromStr : JParse) (path : Str) (lineNo : Nat) (line : Str) :
    Except XErr (Option Json) :=
  let trimmed := trimStr line
  if trimmed.isEmpty then .ok none
  else
    match fromStr trimmed with
    | .error e => .error (.invalidJsonLine path lineNo e)
    | .ok v => .ok (some v)

/-- The loop of `parse_jsonl_reader`, with the callback's captured state made
explicit (`σ` plays the role of the Rust closure environment; the counter is
the running `line_no`). -/
def parseJsonlFold {σ : Type} (fromStr : JParse) (path : Str)
    (step : σ → Nat → Json → Except XErr σ) :
    Nat → σ → List Str → Except XErr σ
  | _, st, [] => .ok st
  | lineNo, st, line :: rest =>
    let n := lineNo + 1
    match parseJsonLine fromStr path n line with
    | .error e => .error e
    | .ok none => parseJsonlFold fromStr path step n st rest
    | .ok (some v) =>
      match step st n v with
      | .error e => .error e
      | .ok st2 => parseJsonlFold fromStr path step n st2 rest

/-- `parse_jsonl_reader` itself (starting at `line_no = 0`). -/
def parseJsonlReader {σ : Type} (fromStr : JParse) (path : Str)
    (step : σ → Nat → Json → Except XErr σ) (st : σ) (lines : List Str) :
    Except XErr σ :=
  parseJsonlFold fromStr path step 0 st lines

/-! ### turl-core message extraction (`turl-core/src/render.rs`) -/

/-- turl-core's `ProviderKind` (it has exactly the four providers matched in
`extract_messages`). -/
inductive TProvider
  | amp
  | codex
  | claude
  | opencode
deriving DecidableEq, Repr

/-- `MessageRole`. -/
inductive MRole
  | user
  | assistant
deriving DecidableEq, Repr

/-- `ThreadMessage`. -/
structure TMsg where
  role : MRole
  text : Str
deriving DecidableEq, Repr

/-- The `TOOL_TYPES` constant. -/
def toolTypes : List Str :=
  [strOf ("tool_call"), strOf ("tool_result"), strOf ("tool_use"),
    strOf ("function_call"), strOf ("function_result"),
    strOf ("function_response")]

/-- `parse_role`. -/
def parseRoleR (role : Str) : Option MRole :=
  if role = strOf ("user") then some .user
  else if role = strOf ("assistant") then some .assistant
  else none

/-- Is this content item typed with one of `TOOL_TYPES`? -/
def isToolItem (item : Json) : Bool :=
  match getStr item (strOf ("type")) with
  | some t => toolTypes.contains t
  | none => false

/-- A `get(key).and_then(as_str)` value that is non-blank after trimming,
already trimmed (the push sites of `extract_text`). -/
def trimmedField (item : Json) (key : Str) : Option Str :=
  match getStr item key with
  | some t => if (trimStr t).isEmpty then none else some (trimStr t)
  | none => none

/-- The chunk-collection loop of `extract_text`. -/
def textChunks : List Json → List Str
  | [] => []
  | item :: rest =>
    if isToolItem item then textChunks rest
    else
      match trimmedField item (strOf ("text")) with
      | some t => t :: textChunks rest
      | none =>
        match trimmedField item (strOf ("input_text")) with
        | some t => t :: textChunks rest
        | none =>
          match trimmedField item (strOf ("output_text")) with
          | some t => t :: textChunks rest
          | none => textChunks rest

/-- `extract_text`. -/
def extractTextR (content : Option Json) : Str :=
  match content with
  | none => []
  | some c =>
    match c.asStr with
    | some t => t
    | none =>
      match c.asArr with
      | none => []
      | some items => List.intercalate (strOf ("\n\n")) (textChunks items)

/-- `extract_codex_message`. -/
def extractCodexMsg (v : Json) : Option TMsg :=
  match getStr v (strOf ("type")) with
  | none => none
  | some recordType =>
    if recordType = strOf ("response_item") then
      match v.getF (strOf ("payload")) with
      | none => none
      | some payload =>
        match getStr payload (strOf ("type")) with
        | none => none
        | some payloadType =>
          if payloadType ≠ strOf ("message") then none
          else
            match getStr payload (strOf ("role")) with
            | none => none
            | some roleStr =>
              match parseRoleR roleStr with
              | none => none
              | some role =>
                let text := extractTextR (payload.getF (strOf ("content")))
                if (trimStr text).isEmpty then none else some ⟨role, text⟩
    else
      if recordType = strOf ("event_msg") ∧
          ((v.getF (strOf ("payload"))).bind
            (fun p => getStr p (strOf ("type")))) = some (strOf ("agent_message"))
      then
        let text :=
          (((v.getF (strOf ("payload"))).bind
            (fun p => getStr p (strOf ("message")))).getD [])
        if (trimStr text).isEmpty then none
        else some ⟨.assistant, text⟩
      else none

/-- `extract_claude_message`. -/
def extractClaudeMsg (v : Json) : Option TMsg :=
  match getStr v (strOf ("type")) with
  | none => none
  | some recordType =>
    if recordType ≠ strOf ("user") ∧ recordType ≠ strOf ("assistant") then none
    else
      match v.getF (strOf ("message")) with
      | none => none
      | some message =>
        let roleStr := (getStr message (strOf ("role"))).getD recordType
        match parseRoleR roleStr with
        | none => none
        | some role =>
          let text := extractTextR (message.getF (strOf ("content")))
          if (trimStr text).isEmpty then none else some ⟨role, text⟩

/-- The part-collection loop of `extract_opencode_message`. -/
def opencodeChunks : List Json → List Str
  | [] => []
  | part :: rest =>
    match getStr part (strOf ("type")) with
    | none => opencodeChunks rest
    | some partType =>
      if partType ≠ strOf ("text") ∧ partType ≠ strOf ("reasoning") then
        opencodeChunks rest
      else
        match getStr part (strOf ("text")) with
        | some t =>
          if !(trimStr t).isEmpty then trimStr t :: opencodeChunks rest
          else opencodeChunks rest
        | none => opencodeChunks rest

/-- `extract_opencode_message`. -/
def extractOpencodeMsg (v : Json) : Option TMsg :=
  match getStr v (strOf ("type")) with
  | none => none
  | some recordType =>
    if recordType ≠ strOf ("message") then none
    else
      match v.getF (strOf ("message")) with
      | none => none
      | some message =>
        match getStr message (strOf ("role")) with
        | none => none
        | some roleStr =>
          match parseRoleR roleStr with
          | none => none
          | some role =>
            let chunks :=
              opencodeChunks (((v.getF (strOf ("parts"))).bind Json.asArr).getD [])
            if chunks.isEmpty then none
            else some ⟨role, List.intercalate (strOf ("\n\n")) chunks⟩

/-- The item loop of `extract_amp_text`. -/
def ampChunks : List Json → List Str
  | [] => []
  | item :: rest =>
    match getStr item (strOf ("type")) with
    | none => ampChunks rest
    | some itemType =>
      if itemType = strOf ("text") then
        match trimmedField item (strOf ("text")) with
        | some t => t :: ampChunks rest
        | none => ampChunks rest
      else if itemType = strOf ("thinking") then
        match trimmedField item (strOf ("thinking")) with
        | some t => t :: ampChunks rest
        | none => ampChunks rest
      else ampChunks rest

/-- `extract_amp_text`. -/
def extractAmpText (content : Option Json) : Str :=
  match content.bind Json.asArr with
  | none => []
  | some items => List.intercalate (strOf ("\n\n")) (ampChunks items)

/-- The message loop of `extract_amp_messages`. -/
def ampMsgLoop : List Json → List TMsg
  | [] => []
  | message :: rest =>
    match (getStr message (strOf ("role"))).bind parseRoleR with
    | none => ampMsgLoop rest
    | some role =>
      let text := extractAmpText (message.getF (strOf ("content")))
      if (trimStr text).isEmpty then ampMsgLoop rest
      else ⟨role, text⟩ :: ampMsgLoop rest

/-- `extract_amp_messages`: the whole document is one JSON value. -/
def extractAmpMessages (fromStr : JParse) (path : Str) (raw : Str) :
    Except XErr (List TMsg) :=
  match fromStr raw with
  | .error e => .error (.invalidJsonLine path 1 e)
  | .ok value =>
    .ok (ampMsgLoop (((value.getF (strOf ("messages"))).bind Json.asArr).getD []))

/-- Strip one trailing carriage return (the `\r\n` handling of
`str::lines`). -/
def stripCr (l : Str) : Str :=
  match l.getLast? with
  | some c => if c = '\r' then l.dropLast else l
  | none => l

/-- Accumulating loop for `str::lines` (accumulator is reversed). -/
def linesGo (acc : Str) : Str → List Str
  | [] => if acc.isEmpty then [] else [acc.reverse]
  | c :: rest =>
    if c = '\n' then stripCr acc.reverse :: linesGo [] rest
    else linesGo (c :: acc) rest

/-- `str::lines`. -/
def linesOf (raw : Str) : List Str := linesGo [] raw

/-- The per-line loop of `extract_messages` (index is 0-based as in
`enumerate`). -/
def extractLoop (fromStr : JParse) (provider : TProvider) (path : Str) :
    Nat → List Str → Except XErr (List TMsg)
  | _, [] => .ok []
  | idx, line :: rest =>
    let lineNo := idx + 1
    let trimmed := trimStr line
    if trimmed.isEmpty then extractLoop fromStr provider path (idx + 1) rest
    else
      match fromStr trimmed with
      | .error e => .error (.invalidJsonLine path lineNo e)
      | .ok value =>
        let extracted : Option TMsg :=
          match provider with
          | .amp => none
          | .codex => extractCodexMsg value
          | .claude => extractClaudeMsg value
          | .opencode => extractOpencodeMsg value
        match extracted with
        | some m => (extractLoop fromStr provider path (idx + 1) rest).map (m :: ·)
        | none => extractLoop fromStr provider path (idx + 1) rest

/-- `extract_messages`. -/
def extractMessagesR (fromStr : JParse) (provider : TProvider) (path : Str)
    (raw : Str) : Except XErr (List TMsg) :=
  if provider = .amp then extractAmpMessages fromStr path raw
  else extractLoop fromStr provider path 0 (linesOf raw)

/-! ### Resolver data model (`model.rs`) and shared helpers -/

/-- A filesystem path, as its component list.  `display` joins with `/`. -/
abbrev PathT := List Str

/-- `Path::display` (for warning/error text). -/
def displayPath (p : PathT) : Str := List.intercalate (strOf ("/")) p

/-- `ResolutionMeta`. -/
structure RMeta where
  source : Str
  candidate_count : Nat
  warnings : List Str
deriving DecidableEq, Repr

/-- `ResolvedThread`. -/
structure RThread where
  provider : PKind
  session_id : Str
  path : PathT
  metadata : RMeta
deriving DecidableEq, Repr

/-- Insert into a list sorted by descending modification time; equal keys go
after existing entries, mirroring the stability of Rust's
`sort_by_key(Reverse(modified))`. -/
def insertDesc (x : PathT × Nat) : List (PathT × Nat) → List (PathT × Nat)
  | [] => [x]
  | y :: ys => if x.2 ≤ y.2 then y :: insertDesc x ys else x :: y :: ys

/-- Stable descending sort by modification time. -/
def sortDesc (l : List (PathT × Nat)) : List (PathT × Nat) :=
  l.foldl (fun acc x => insertDesc x acc) []

/-- The shared `choose_latest`: pick latest-modified (first among ties, by
stability), and report the candidate count.  `mtime` is the filesystem's
`metadata().modified()` (defaulting to the epoch on failure, which the model
absorbs into the function itself). -/
def chooseLatestP (mtime : PathT → Nat) (paths : List PathT) :
    Option (PathT × Nat) :=
  match sortDesc (paths.map (fun p => (p, mtime p))) with
  | [] => none
  | top :: _ => some (top.1, paths.length)

/-- "multiple matches found ..." warning text (codex/claude/gemini share the
wording). -/
def multiMsg (count : Nat) (sid : Str) (p : PathT) : Str :=
  strOf ("multiple matches found (") ++ natStr count ++
    strOf (") for session_id=") ++ sid ++ strOf ("; selected latest: ") ++
    displayPath p

/-! ### The Codex resolver (`provider/codex.rs`) -/

/-- One row of the sqlite `threads` table. -/
structure CodexRecord where
  rollout : PathT
  archived : Bool
deriving DecidableEq, Repr

/-- The environment `CodexProvider::resolve` reads.  `dbs` is the list of
state databases in `state_db_paths` order, each carrying the outcome of
`query_thread_record` for the resolved session id; `exists` is
`Path::exists`; `mtime` is `metadata().modified()`; `activeFiles` and
`archivedFiles` list the files below the two session trees in walk order. -/
structure CodexEnv where
  dbs : List (PathT × Except Str (Option CodexRecord))
  pexists : PathT → Bool
  mtime : PathT → Nat
  activeFiles : List PathT
  archivedFiles : List PathT
  sessionsRoot : PathT
  archivedRoot : PathT

/-- "failed reading sqlite thread index ..." warning. -/
def dbReadWarn (dbPath : PathT) (err : Str) : Str :=
  strOf ("failed reading sqlite thread index ") ++ displayPath dbPath ++
    strOf (": ") ++ err

/-- `lookup_thread_from_state_db`: first `Ok(Some(..))` wins; errors push a
warning and continue. -/
def codexDbLookup : List (PathT × Except Str (Option CodexRecord)) →
    List Str → Option CodexRecord × List Str
  | [], ws => (none, ws)
  | (dbPath, res) :: rest, ws =>
    match res with
    | .ok (some r) => (some r, ws)
    | .ok none => codexDbLookup rest ws
    | .error e => codexDbLookup rest (ws ++ [dbReadWarn dbPath e])

/-- `CodexProvider::find_candidates`: `rollout-*<id>.jsonl` under a tree. -/
def codexFindCandidates (files : List PathT) (sid : Str) : List PathT :=
  files.filter (fun p =>
    match p.getLast? with
    | some name =>
      strStarts (strOf ("rollout-")) name &&
        strEnds (sid ++ strOf (".jsonl")) name
    | none => false)

/-- "missing rollout" stale-pointer warning for the active tier. -/
def staleActiveMsg (sid : Str) (p : PathT) : Str :=
  strOf ("sqlite thread index points to a missing rollout for session_id=") ++
    sid ++ strOf (": ") ++ displayPath p

/-- "missing archived rollout" stale-pointer warning. -/
def staleArchivedMsg (sid : Str) (p : PathT) : Str :=
  strOf
      ("sqlite thread index points to a missing archived rollout for session_id=") ++
    sid ++ strOf (": ") ++ displayPath p

/-- "multiple archived matches found ..." warning. -/
def multiArchivedMsg (count : Nat) (sid : Str) (p : PathT) : Str :=
  strOf ("multiple archived matches found (") ++ natStr count ++
    strOf (") for session_id=") ++ sid ++ strOf ("; selected latest: ") ++
    displayPath p

/-- `CodexProvider::resolve`. -/
def codexResolve (env : CodexEnv) (sid : Str) : Except XErr RThread :=
  let lk := codexDbLookup env.dbs []
  let sqliteRecord := lk.1
  let warnings0 := lk.2
  let afterActiveDb :
      Except XErr RThread ⊕ List Str :=
    match sqliteRecord with
    | some r =>
      if !r.archived then
        if env.pexists r.rollout then
          .inl (.ok ⟨.codex, sid, r.rollout,
            ⟨strOf ("codex:sqlite:sessions"), 1, warnings0⟩⟩)
        else .inr (warnings0 ++ [staleActiveMsg sid r.rollout])
      else .inr warnings0
    | none => .inr warnings0
  match afterActiveDb with
  | .inl res => res
  | .inr warnings1 =>
    match chooseLatestP env.mtime (codexFindCandidates env.activeFiles sid) with
    | some (selected, count) =>
      let warnings2 :=
        if count > 1 then warnings1 ++ [multiMsg count sid selected]
        else warnings1
      .ok ⟨.codex, sid, selected, ⟨strOf ("codex:sessions"), count, warnings2⟩⟩
    | none =>
      let afterArchivedDb :
          Except XErr RThread ⊕ List Str :=
        match sqliteRecord with
        | some r =>
          if r.archived then
            if env.pexists r.rollout then
              .inl (.ok ⟨.codex, sid, r.rollout,
                ⟨strOf ("codex:sqlite:archived_sessions"), 1, warnings1⟩⟩)
            else .inr (warnings1 ++ [staleArchivedMsg sid r.rollout])
          else .inr warnings1
        | none => .inr warnings1
      match afterArchivedDb with
      | .inl res => res
      | .inr warnings2 =>
        match chooseLatestP env.mtime
            (codexFindCandidates env.archivedFiles sid) with
        | some (selected, count) =>
          let warnings3 :=
            if count > 1 then warnings2 ++ [multiArchivedMsg count sid selected]
            else warnings2
          .ok ⟨.codex, sid, selected,
            ⟨strOf ("codex:archived_sessions"), count, warnings3⟩⟩
        | none =>
          .error (.threadNotFound (strOf ("codex")) sid
            ([env.sessionsRoot, env.archivedRoot] ++ env.dbs.map (·.1)))

/-! ### The Claude resolver (`provider/claude.rs`) -/

/-- The environment `ClaudeProvider::resolve` reads: the walk of the projects
root (file paths in walk order), `metadata().modified()`, `Path::exists`, the
parsed entries of each `sessions-index.json` (`none` models a read or parse
failure, which the code skips), and the lines of each file (for the header
scan). -/
structure ClaudeEnv where
  projectsRoot : PathT
  files : List PathT
  mtime : PathT → Nat
  pexists : PathT → Bool
  indexParse : PathT → Option (List (Str × Option PathT))
  readLines : PathT → List Str

/-- `find_from_sessions_index`. -/
def claudeFindFromIndex (env : ClaudeEnv) (sid : Str) : List PathT :=
  (((env.files.filter
        (fun p => p.getLast? = some (strOf ("sessions-index.json")))).filterMap
      env.indexParse).map
    (fun entries =>
      (entries.filter (fun e => e.1 = sid)).filterMap (·.2))).flatten.filter
    env.pexists

/-- `find_by_filename`. -/
def claudeFindByFilename (env : ClaudeEnv) (sid : Str) : List PathT :=
  env.files.filter (fun p => p.getLast? = some (sid ++ strOf (".jsonl")))

/-- The scan loop of `file_contains_session_id` over the (at most 30) taken
lines. -/
def claudeScanLines (fromStr : JParse) (sid : Str) : List Str → Bool
  | [] => false
  | line :: rest =>
    if (trimStr line).isEmpty then claudeScanLines fromStr sid rest
    else
      match fromStr line with
      | .ok value =>
        if getStr value (strOf ("sessionId")) = some sid then true
        else claudeScanLines fromStr sid rest
      | .error _ => claudeScanLines fromStr sid rest

/-- `file_contains_session_id`: `reader.lines().take(30)` then the scan —
note the budget of 30 counts every line, blank or not. -/
def claudeFileContains (fromStr : JParse) (lines : List Str) (sid : Str) :
    Bool :=
  claudeScanLines fromStr sid (lines.take 30)

/-- `Path::extension` on a file name. -/
def extOf (name : Str) : Option Str :=
  let parts := splitAll '.' name
  if parts.length ≤ 1 then none
  else if parts.length = 2 ∧ parts.headD [] = [] then none
  else parts.getLast?

/-- `find_by_header_scan`. -/
def claudeFindByHeaderScan (fromStr : JParse) (env : ClaudeEnv) (sid : Str) :
    List PathT :=
  (env.files.filter (fun p =>
    match p.getLast? with
    | some name => extOf name = some (strOf ("jsonl"))
    | none => false)).filter
    (fun p => claudeFileContains fromStr (env.readLines p) sid)

/-- `ClaudeProvider::make_resolved`. -/
def claudeMakeResolved (sid : Str) (selected : PathT) (count : Nat)
    (source : Str) : RThread :=
  let warnings := if count > 1 then [multiMsg count sid selected] else []
  ⟨.claude, sid, selected, ⟨source, count, warnings⟩⟩

/-- `ClaudeProvider::resolve`. -/
def claudeResolve (fromStr : JParse) (env : ClaudeEnv) (sid : Str) :
    Except XErr RThread :=
  match chooseLatestP env.mtime (claudeFindFromIndex env sid) with
  | some (selected, count) =>
    .ok (claudeMakeResolved sid selected count (strOf ("claude:sessions-index")))
  | none =>
    match chooseLatestP env.mtime (claudeFindByFilename env sid) with
    | some (selected, count) =>
      .ok (claudeMakeResolved sid selected count (strOf ("claude:filename")))
    | none =>
      match chooseLatestP env.mtime (claudeFindByHeaderScan fromStr env sid) with
      | some (selected, count) =>
        .ok (claudeMakeResolved sid selected count (strOf ("claude:header-scan")))
      | none =>
        .error (.threadNotFound (strOf ("claude")) sid [env.projectsRoot])

/-- Modelled from the spec (for comparison with `claudeFileContains`):
"content scan — first 30 non-blank lines of every `.jsonl` file, match an
embedded `sessionId`".  It takes 30 lines only after discarding blanks. -/
def claudeFileContainsSpec (fromStr : JParse) (lines : List Str) (sid : Str) :
    Bool :=
  claudeScanLines fromStr sid
    ((lines.filter (fun l => !(trimStr l).isEmpty)).take 30)

/-! ### The Gemini resolver (`provider/gemini.rs`) -/

/-- The environment `GeminiProvider::resolve` reads: walk of the `tmp` root,
modification times, and `read_to_string` results per file. -/
structure GeminiEnv where
  tmpRoot : PathT
  files : List PathT
  mtime : PathT → Nat
  readContent : PathT → Option Str

/-- `GeminiProvider::is_session_file`. -/
def geminiIsSessionFile (p : PathT) : Bool :=
  let nameOk :=
    match p.getLast? with
    | some name =>
      strStarts (strOf ("session-")) name && strEnds (strOf (".json")) name
    | none => false
  let parentOk :=
    match p.reverse with
    | _ :: parent :: _ => parent = strOf ("chats")
    | _ => false
  nameOk && parentOk

/-- `GeminiProvider::has_session_id` (case-insensitive comparison). -/
def geminiHasSessionId (fromStr : JParse) (content : Option Str) (sid : Str) :
    Bool :=
  match content with
  | none => false
  | some raw =>
    match fromStr raw with
    | .error _ => false
    | .ok value =>
      match getStr value (strOf ("sessionId")) with
      | some found => lowerStr found = lowerStr sid
      | none => false

/-- `GeminiProvider::find_candidates`. -/
def geminiFindCandidates (fromStr : JParse) (env : GeminiEnv) (sid : Str) :
    List PathT :=
  (env.files.filter geminiIsSessionFile).filter
    (fun p => geminiHasSessionId fromStr (env.readContent p) sid)

/-- `GeminiProvider::resolve`. -/
def geminiResolve (fromStr : JParse) (env : GeminiEnv) (sid : Str) :
    Except XErr RThread :=
  match chooseLatestP env.mtime (geminiFindCandidates fromStr env sid) with
  | some (selected, count) =>
    let warnings := if count > 1 then [multiMsg count sid selected] else []
    .ok ⟨.gemini, sid, selected, ⟨strOf ("gemini:chats"), count, warnings⟩⟩
  | none => .error (.threadNotFound (strOf ("gemini")) sid [env.tmpRoot])

/-! ### SipHash-1-3 (`std::hash::DefaultHasher`) and the Opencode
materialized path (`provider/opencode.rs::materialized_path`) -/

/-- u64 addition. -/
def add64 (a b : Nat) : Nat := (a + b) % 2 ^ 64

/-- u64 xor. -/
def xor64 (a b : Nat) : Nat := (a ^^^ b) % 2 ^ 64

/-- u64 rotate-left. -/
def rotl64 (x r : Nat) : Nat := ((x <<< r) ||| (x >>> (64 - r))) % 2 ^ 64

/-- SipHash internal state. -/
structure SipState where
  v0 : Nat
  v1 : Nat
  v2 : Nat
  v3 : Nat

/-- One SipRound. -/
def sipRound (s : SipState) : SipState :=
  let v0 := add64 s.v0 s.v1
  let v1 := rotl64 s.v1 13
  let v1 := xor64 v1 v0
  let v0 := rotl64 v0 32
  let v2 := add64 s.v2 s.v3
  let v3 := rotl64 s.v3 16
  let v3 := xor64 v3 v2
  let v0 := add64 v0 v3
  let v3 := rotl64 v3 21
  let v3 := xor64 v3 v0
  let v2 := add64 v2 v1
  let v1 := rotl64 v1 17
  let v1 := xor64 v1 v2
  let v2 := rotl64 v2 32
  ⟨v0, v1, v2, v3⟩

/-- Little-endian word value of a byte list. -/
def leWord (bs : List Nat) : Nat := bs.foldr (fun b acc => b + 256 * acc) 0

/-- Split a byte stream into full 8-byte blocks plus the tail. -/
def chunks8 : List Nat → List (List Nat) × List Nat
  | b0 :: b1 :: b2 :: b3 :: b4 :: b5 :: b6 :: b7 :: rest =>
    let cd := chunks8 rest
    ([b0, b1, b2, b3, b4, b5, b6, b7] :: cd.1, cd.2)
  | bs => ([], bs)

/-- One compression step (1 c-round for SipHash-1-3). -/
def sipCompress (st : SipState) (w : Nat) : SipState :=
  let st1 : SipState := ⟨st.v0, st.v1, st.v2, xor64 st.v3 w⟩
  let st2 := sipRound st1
  ⟨xor64 st2.v0 w, st2.v1, st2.v2, st2.v3⟩

/-- SipHash-1-3 over a byte stream with keys `k0`, `k1` (the
`DefaultHasher` uses `(0, 0)`). -/
def sip13 (k0 k1 : Nat) (data : List Nat) : Nat :=
  let st0 : SipState :=
    ⟨xor64 k0 0x736f6d6570736575, xor64 k1 0x646f72616e646f6d,
      xor64 k0 0x6c7967656e657261, xor64 k1 0x7465646279746573⟩
  let cd := chunks8 data
  let st1 := cd.1.foldl (fun st blk => sipCompress st (leWord blk)) st0
  let b := ((data.length % 256) * 2 ^ 56 + leWord cd.2) % 2 ^ 64
  let st2 := sipCompress st1 b
  let st3 : SipState := ⟨st2.v0, st2.v1, xor64 st2.v2 0xff, st2.v3⟩
  let st4 := sipRound (sipRound (sipRound st3))
  xor64 (xor64 (xor64 st4.v0 st4.v1) st4.v2) st4.v3

/-- `bytes[s..e]`. -/
def sliceBytes (bytes : List Nat) (s e : Nat) : List Nat :=
  (bytes.drop s).take (e - s)

/-- The `CurDir` skip of `Hash for Path`: after a separator, a `.` component
is normalized away.  Returns how far `component_start` moves past `i`. -/
def dotSkip (bytes : List Nat) (j : Nat) : Nat :=
  if j < bytes.length ∧ bytes.getD j 0 = 46 ∧
      (j + 1 ≥ bytes.length ∨ bytes.getD (j + 1) 0 = 47) then 1 else 0

/-- The component-emission loop of `Hash for Path` (unix: the separator byte
is `/`): the bytes the hasher's `write` calls receive, concatenated. -/
def pathHashEmit (bytes : List Nat) (i cs : Nat) : List Nat :=
  if i < bytes.length then
    if bytes.getD i 0 = 47 then
      (if cs < i then sliceBytes bytes cs i else []) ++
        pathHashEmit bytes (i + 1) (i + 1 + dotSkip bytes (i + 1))
    else pathHashEmit bytes (i + 1) cs
  else if cs < bytes.length then sliceBytes bytes cs bytes.length else []
termination_by bytes.length - i

/-- `usize::to_ne_bytes` (8 bytes, little-endian on supported targets). -/
def usizeLE (n : Nat) : List Nat := (List.range 8).map (fun i => n / 256 ^ i % 256)

/-- The whole byte stream `PathBuf::hash` feeds to the hasher: the emitted
component bytes followed by `write_usize(bytes_hashed)`. -/
def pathHashStream (bytes : List Nat) : List Nat :=
  let emitted := pathHashEmit bytes 0 0
  emitted ++ usizeLE emitted.length

/-- `hasher.finish()` for `root.hash(&mut DefaultHasher::new())`. -/
def rootHash64 (rootBytes : List Nat) : Nat := sip13 0 0 (pathHashStream rootBytes)

/-- One lowercase hex digit (`{:x}`). -/
def hexChar (n : Nat) : Char :=
  if n < 10 then Char.ofNat (48 + n) else Char.ofNat (87 + n)

/-- `k` big-endian hex digits of `n` (`{:016x}` with `k = 16`). -/
def hexDigitsBE : Nat → Nat → Str
  | 0, _ => []
  | k + 1, n => hexDigitsBE k (n / 16) ++ [hexChar (n % 16)]

/-- `format!("{:016x}", h)`. -/
def hexPad16 (n : Nat) : Str := hexDigitsBE 16 n

/-- `std::env::temp_dir()`: fixed within one execution environment, so the
model takes it as a constant. -/
def tempDirComponents : PathT := [strOf ("tmp")]

/-- `OpencodeProvider::materialized_path`: a pure function of the root bytes
and the session id. -/
def materializedPath (rootBytes : List Nat) (sid : Str) : PathT :=
  tempDirComponents ++
    [strOf ("xurl-opencode"), hexPad16 (rootHash64 rootBytes),
      sid ++ strOf (".jsonl")]

/-! ### The Opencode resolver (`provider/opencode.rs`) -/

/-- One row of the `message` table. -/
structure OcMsgRow where
  id : Str
  sessionId : Str
  timeCreated : Int
  data : Str

/-- One row of the `part` table. -/
structure OcPartRow where
  id : Str
  messageId : Str
  sessionId : Str
  timeCreated : Int
  data : Str

/-- The `opencode.db` contents the resolver reads. -/
structure OcDb where
  sessions : List Str
  msgRows : List OcMsgRow
  partRows : List OcPartRow

/-- Byte-wise (memcmp) strictly-less-than on byte lists — SQLite TEXT
ordering. -/
def bytesLt : List Nat → List Nat → Bool
  | [], [] => false
  | [], _ :: _ => true
  | _ :: _, [] => false
  | a :: as_, b :: bs => if a < b then true else if b < a then false else bytesLt as_ bs

/-- SQLite `ORDER BY time_created ASC, id ASC` key comparison. -/
def ocKeyLe (t1 : Int) (i1 : Str) (t2 : Int) (i2 : Str) : Bool :=
  if t1 < t2 then true
  else if t2 < t1 then false
  else !bytesLt (strBytes i2) (strBytes i1)

/-- Insertion into an ascending list under `le` (stable). -/
def insertAsc {α : Type} (le : α → α → Bool) (x : α) : List α → List α
  | [] => [x]
  | y :: ys => if le y x then y :: insertAsc le x ys else x :: y :: ys

/-- Stable insertion sort under `le`. -/
def sortAsc {α : Type} (le : α → α → Bool) (l : List α) : List α :=
  l.foldl (fun acc x => insertAsc le x acc) []

/-- `fetch_messages`: ordered rows of the session, each data payload parsed;
malformed rows are skipped with a warning. -/
def ocFetchMessages (fromStr : JParse) (db : OcDb) (sid : Str) :
    List (Str × Json) × List Str :=
  let rows := sortAsc (fun r1 r2 => ocKeyLe r1.timeCreated r1.id r2.timeCreated r2.id)
    (db.msgRows.filter (fun r => r.sessionId = sid))
  rows.foldl
    (fun acc r =>
      match fromStr r.data with
      | .ok v => (acc.1 ++ [(r.id, v)], acc.2)
      | .error e =>
        (acc.1, acc.2 ++
          [strOf ("skipped message id=") ++ r.id ++
            strOf (": invalid json payload (") ++ e ++ strOf (")")]))
    ([], [])

/-- `fetch_parts`, flattened: `(message_id, value)` pairs in row order
(grouping by message id preserves this order). -/
def ocFetchParts (fromStr : JParse) (db : OcDb) (sid : Str) :
    List (Str × Json) × List Str :=
  let rows := sortAsc (fun r1 r2 => ocKeyLe r1.timeCreated r1.id r2.timeCreated r2.id)
    (db.partRows.filter (fun r => r.sessionId = sid))
  rows.foldl
    (fun acc r =>
      match fromStr r.data with
      | .ok v => (acc.1 ++ [(r.messageId, v)], acc.2)
      | .error e =>
        (acc.1, acc.2 ++
          [strOf ("skipped part for message_id=") ++ r.messageId ++
            strOf (": invalid json payload (") ++ e ++ strOf (")")]))
    ([], [])

/-- JSON string escaping (serde_json's escapes). -/
def escapeJsonChar (c : Char) : Str :=
  if c = '"' then ['\\', '"']
  else if c = '\\' then ['\\', '\\']
  else if c = '\n' then ['\\', 'n']
  else if c = '\t' then ['\\', 't']
  else if c = '\r' then ['\\', 'r']
  else if c.toNat = 8 then ['\\', 'b']
  else if c.toNat = 12 then ['\\', 'f']
  else if c.toNat < 32 then
    ['\\', 'u', '0', '0', hexChar (c.toNat / 16), hexChar (c.toNat % 16)]
  else [c]

/-- Serialize a JSON string literal. -/
def jsonStrLit (s : Str) : Str :=
  '"' :: (s.map escapeJsonChar).flatten ++ ['"']

mutual

/-- `serde_json::to_string` (a fixed deterministic rendering; object fields
serialize in stored order). -/
def jsonSerialize : Json → Str
  | .null => strOf ("null")
  | .bool true => strOf ("true")
  | .bool false => strOf ("false")
  | .num n => (toString n).toList
  | .str s => jsonStrLit s
  | .arr xs => '[' :: jsonSerializeList xs ++ [']']
  | .obj fs => Char.ofNat 0x7b :: jsonSerializeFields fs ++ [Char.ofNat 0x7d]

/-- Comma-joined serialization of array elements. -/
def jsonSerializeList : List Json → Str
  | [] => []
  | [x] => jsonSerialize x
  | x :: y :: rest => jsonSerialize x ++ ',' :: jsonSerializeList (y :: rest)

/-- Comma-joined serialization of object fields. -/
def jsonSerializeFields : List (Str × Json) → Str
  | [] => []
  | [(k, v)] => jsonStrLit k ++ ':' :: jsonSerialize v
  | (k, v) :: f :: rest =>
    jsonStrLit k ++ ':' :: jsonSerialize v ++ ',' :: jsonSerializeFields (f :: rest)

end

/-- Parts belonging to one message id (`HashMap::remove`): the matching
values, and the remaining entries. -/
def ocPartsFor (mid : Str) (parts : List (Str × Json)) :
    List Json × List (Str × Json) :=
  ((parts.filter (fun e => e.1 = mid)).map (·.2),
    parts.filter (fun e => e.1 ≠ mid))

/-- The message-line loop of `render_jsonl`. -/
def ocRenderLines (sid : Str) : List (Str × Json) → List (Str × Json) → List Json
  | [], _ => []
  | (id, message) :: rest, parts =>
    let taken := ocPartsFor id parts
    Json.obj
        [(strOf ("type"), .str (strOf ("message"))), (strOf ("id"), .str id),
          (strOf ("sessionId"), .str sid), (strOf ("message"), message),
          (strOf ("parts"), .arr taken.1)] ::
      ocRenderLines sid rest taken.2

/-- `render_jsonl`: session header plus one message-with-parts record per
turn, newline-terminated. -/
def ocRenderJsonl (sid : Str) (messages : List (Str × Json))
    (parts : List (Str × Json)) : Str :=
  let lines :=
    Json.obj [(strOf ("type"), .str (strOf ("session"))),
        (strOf ("sessionId"), .str sid)] ::
      ocRenderLines sid messages parts
  (lines.map (fun j => jsonSerialize j ++ ['\n'])).flatten

/-- The environment `OpencodeProvider::resolve` reads: the root path (as the
byte string the hasher consumes) and the database (`none` models a missing
`opencode.db`). -/
structure OcEnv where
  rootBytes : List Nat
  db : Option OcDb

/-- Provenance path for not-found errors (the `opencode.db` under the root). -/
def ocDbPath (env : OcEnv) : PathT :=
  [(env.rootBytes.map Char.ofNat) ++ strOf ("/opencode.db")]

/-- `OpencodeProvider::resolve`.  Returns the resolved thread together with
the materialized file (path and byte-exact content) that the call writes. -/
def ocResolve (fromStr : JParse) (env : OcEnv) (sid : Str) :
    Except XErr (RThread × (PathT × Str)) :=
  match env.db with
  | none => .error (.threadNotFound (strOf ("opencode")) sid [ocDbPath env])
  | some db =>
    if !db.sessions.contains sid then
      .error (.threadNotFound (strOf ("opencode")) sid [ocDbPath env])
    else
      let fm := ocFetchMessages fromStr db sid
      let fp := ocFetchParts fromStr db sid
      let raw := ocRenderJsonl sid fm.1 fp.1
      let path := materializedPath env.rootBytes sid
      .ok (⟨.opencode, sid, path,
        ⟨strOf ("opencode:sqlite"), 1, fm.2 ++ fp.2⟩⟩, (path, raw))

/-! ### Write adapters (`provider/amp.rs::run_write`,
`provider/claude.rs::run_write`) -/

/-- `WriteResult`. -/
structure WriteResultM where
  provider : PKind
  session_id : Str
  final_text : Option Str
  warnings : List Str
deriving DecidableEq, Repr

/-- The `WriteEventSink` capability, with the sink's mutable state `σ` made
explicit. -/
structure SinkOps (σ : Type) where
  ready : σ → PKind → Str → Except XErr σ
  delta : σ → Str → Except XErr σ

/-- `AmpProvider::extract_assistant_text`. -/
def ampAssistantText (v : Json) : Option Str :=
  match v.getF (strOf ("message")) with
  | none => none
  | some message =>
    match (message.getF (strOf ("content"))).bind Json.asArr with
    | none => none
    | some content =>
      let text := (content.filterMap (fun item =>
        if getStr item (strOf ("type")) = some (strOf ("text")) then
          getStr item (strOf ("text"))
        else none)).flatten
      if text.isEmpty then none else some text

/-- The mutable locals of `AmpProvider::run_write`'s streaming closure. -/
structure AmpSt (σ : Type) where
  sink : σ
  session : Option Str
  finalText : Option Str
  streamError : Option Str
deriving DecidableEq

/-- One event of the amp stream (the closure body). -/
def ampStep {σ : Type} (ops : SinkOps σ) (st : AmpSt σ) (v : Json) :
    Except XErr (AmpSt σ) :=
  match getStr v (strOf ("type")) with
  | none => .ok st
  | some eventType =>
    if eventType = strOf ("system") then
      if getStr v (strOf ("subtype")) = some (strOf ("init")) then
        match getStr v (strOf ("session_id")) with
        | some sid =>
          (ops.ready st.sink .amp sid).map
            (fun s => { st with sink := s, session := some sid })
        | none => .ok st
      else .ok st
    else if eventType = strOf ("assistant") then
      let step1 : Except XErr (AmpSt σ) :=
        match ampAssistantText v with
        | some text =>
          (ops.delta st.sink text).map
            (fun s => { st with sink := s, finalText := some text })
        | none => .ok st
      step1.map (fun st1 =>
        match getStr v (strOf ("session_id")) with
        | some sid => { st1 with session := some sid }
        | none => st1)
    else if eventType = strOf ("result") then
      let st1 :=
        match getStr v (strOf ("session_id")) with
        | some sid => { st with session := some sid }
        | none => st
      let isErr :=
        (v.getF (strOf ("is_error"))).bind Json.asBool = some true ∨
          getStr v (strOf ("subtype")) = some (strOf ("error"))
      let st2 :=
        if isErr then
          { st1 with streamError :=
            match getStr v (strOf ("result")) with
            | some m => some m
            | none => (v.getF (strOf ("error"))).bind
                (fun e => getStr e (strOf ("message"))) }
        else st1
      if st2.finalText = none then
        match getStr v (strOf ("result")) with
        | some text =>
          if !text.isEmpty then
            (ops.delta st2.sink text).map
              (fun s => { st2 with sink := s, finalText := some text })
          else .ok st2
        | none => .ok st2
      else .ok st2
    else .ok st

/-- `format!("{} {}", bin, args.join(" "))` for the amp binary. -/
def ampCmdStr (args : List Str) : Str :=
  strOf ("amp ") ++ List.intercalate (strOf (" ")) args

/-- `AmpProvider::run_write`: stream consumption (via the jsonl reader),
exit-status check, stream-error check, session check.  `exitSuccess` /
`exitCode` / `stderr` model the child process outcome; the stderr drain
thread's join is its `stderr` value. -/
def ampRunWrite {σ : Type} (fromStr : JParse) (ops : SinkOps σ) (sink0 : σ)
    (reqSession : Option Str) (stdoutLines : List Str) (exitSuccess : Bool)
    (exitCode : Option Int) (stderr : Str) (args : List Str)
    (warnings : List Str) : Except XErr WriteResultM :=
  match parseJsonlReader fromStr (strOf ("<amp:stdout>"))
      (fun st _ v => ampStep ops st v) ⟨sink0, reqSession, none, none⟩
      stdoutLines with
  | .error e => .error e
  | .ok st =>
    if !exitSuccess then
      .error (.commandFailed (ampCmdStr args) exitCode (trimStr stderr))
    else
      match st.streamError with
      | some msg =>
        .error (.writeProtocol
          (strOf ("amp stream returned an error: ") ++ msg))
      | none =>
        match st.session with
        | some sid => .ok ⟨.amp, sid, st.finalText, warnings⟩
        | none =>
          .error (.writeProtocol
            (strOf ("missing session id in amp event stream")))

/-- `ClaudeProvider::extract_assistant_text` (same shape as amp's). -/
def claudeAssistantText (v : Json) : Option Str :=
  match v.getF (strOf ("message")) with
  | none => none
  | some message =>
    match (message.getF (strOf ("content"))).bind Json.asArr with
    | none => none
    | some content =>
      let text := (content.filterMap (fun item =>
        if getStr item (strOf ("type")) = some (strOf ("text")) then
          getStr item (strOf ("text"))
        else none)).flatten
      if text.isEmpty then none else some text

/-- The mutable locals of `ClaudeProvider::run_write`'s closure — note there
is no stream-error slot. -/
structure ClSt (σ : Type) where
  sink : σ
  session : Option Str
  finalText : Option Str
deriving DecidableEq

/-- One event of the claude stream (the closure body of
`ClaudeProvider::run_write`). -/
def claudeStep {σ : Type} (ops : SinkOps σ) (st : ClSt σ) (v : Json) :
    Except XErr (ClSt σ) :=
  match getStr v (strOf ("type")) with
  | none => .ok st
  | some eventType =>
    if eventType = strOf ("system") then
      if getStr v (strOf ("subtype")) = some (strOf ("init")) then
        match getStr v (strOf ("session_id")) with
        | some sid =>
          (ops.ready st.sink .claude sid).map
            (fun s => { st with sink := s, session := some sid })
        | none => .ok st
      else .ok st
    else if eventType = strOf ("assistant") then
      let step1 : Except XErr (ClSt σ) :=
        match claudeAssistantText v with
        | some text =>
          (ops.delta st.sink text).map
            (fun s => { st with sink := s, finalText := some text })
        | none => .ok st
      step1.map (fun st1 =>
        match getStr v (strOf ("session_id")) with
        | some sid => { st1 with session := some sid }
        | none => st1)
    else if eventType = strOf ("result") then
      let st1 :=
        match getStr v (strOf ("session_id")) with
        | some sid => { st with session := some sid }
        | none => st
      if st1.finalText = none then
        match getStr v (strOf ("result")) with
        | some text =>
          if !text.isEmpty then
            (ops.delta st1.sink text).map
              (fun s => { st1 with sink := s, finalText := some text })
          else .ok st1
        | none => .ok st1
      else .ok st1
    else .ok st

/-- `format!("{} {}", bin, args.join(" "))` for the claude binary. -/
def claudeCmdStr (args : List Str) : Str :=
  strOf ("claude ") ++ List.intercalate (strOf (" ")) args

/-- `ClaudeProvider::run_write`: stream consumption, exit-status check,
session check — and, unlike amp, no stream-level `is_error` check. -/
def claudeRunWrite {σ : Type} (fromStr : JParse) (ops : SinkOps σ) (sink0 : σ)
    (reqSession : Option Str) (stdoutLines : List Str) (exitSuccess : Bool)
    (exitCode : Option Int) (stderr : Str) (args : List Str)
    (warnings : List Str) : Except XErr WriteResultM :=
  match parseJsonlReader fromStr (strOf ("<claude:stdout>"))
      (fun st _ v => claudeStep ops st v) ⟨sink0, reqSession, none⟩
      stdoutLines with
  | .error e => .error e
  | .ok st =>
    if !exitSuccess then
      .error (.commandFailed (claudeCmdStr args) exitCode (trimStr stderr))
    else
      match st.session with
      | some sid => .ok ⟨.claude, sid, st.finalText, warnings⟩
      | none =>
        .error (.writeProtocol
          (strOf ("missing session id in claude event stream")))

/-! ### Statement helpers and concrete fixtures -/

/-- Does this line parse as JSON carrying `sessionId == sid`?  (The match
condition of the claude header scan.) -/
def lineIdMatches (fromStr : JParse) (sid : Str) (l : Str) : Bool :=
  match fromStr l with
  | .ok v => getStr v (strOf ("sessionId")) = some sid
  | .error _ => false

/-- Value of a lowercase hex digit character (inverse of `hexChar`). -/
def hexVal16 (c : Char) : Nat :=
  if 97 ≤ c.toNat then c.toNat - 87 else c.toNat - 48

/-- Decode a big-endian hex digit string. -/
def unhex (s : Str) : Nat := s.foldl (fun a c => a * 16 + hexVal16 c) 0

/-- Canonical-form predicate on a session id: it satisfies the provider's
grammar and is a fixed point of the parser's canonicalization. -/
def canonicalSid (p : PKind) (s : Str) : Prop :=
  sidGrammar p s = true ∧ canonSid p s = s

/-- Conditions under which an agent id survives a serialize/parse round
trip: non-empty, free of `/` and `?`, canonicalization-fixed, and satisfying
the grammars the parser enforces for Amp and Opencode children. -/
def agentRoundTrips (p : PKind) (a : Str) : Prop :=
  a ≠ [] ∧ '/' ∉ a ∧ '?' ∉ a ∧ canonAgent p a = a ∧
    (p = .amp → ampShape a = true) ∧ (p = .opencode → opShape a = true)

/-- A sink with no state that always succeeds (fixture). -/
def sinkUnit : SinkOps Unit where
  ready := fun _ _ _ => .ok ()
  delta := fun _ _ => .ok ()

/-- The error-result stream line of the C4 scenario. -/
def c4Line : Str :=
  strOf ("\x7b\"type\":\"result\",\"is_error\":true,\"result\":\"boom\"\x7d")

/-- The JSON value of `c4Line`. -/
def c4Json : Json :=
  .obj [(strOf ("type"), .str (strOf ("result"))),
    (strOf ("is_error"), .bool true),
    (strOf ("result"), .str (strOf ("boom")))]

/-- A concrete serde model mapping the C4 scenario line to its value. -/
def c4Parse : JParse := fun s =>
  if s = c4Line then .ok c4Json else .error (strOf ("expected value"))

/-- A claude session header line (C9 fixture). -/
def c9Line : Str :=
  strOf ("\x7b\"sessionId\":\"1bd3c108-41b8-4291-93e8-8a472ab09de8\"\x7d")

/-- The session id embedded in `c9Line`. -/
def c9Sid : Str := strOf ("1bd3c108-41b8-4291-93e8-8a472ab09de8")

/-- A concrete serde model for the C9 fixture. -/
def c9Parse : JParse := fun s =>
  if s = c9Line then .ok (.obj [(strOf ("sessionId"), .str c9Sid)])
  else .error (strOf ("expected value"))

/-- A thread file whose session header sits behind thirty blank lines (C9
fixture). -/
def c9Lines : List Str := List.replicate 30 [] ++ [c9Line]

/-- A serde model that rejects every line (fixture). -/
def rejectParse : JParse := fun _ => .error (strOf ("expected value"))

/-- Codex environment fixture: one rollout file on disk, no databases. -/
def codexEnvFs : CodexEnv where
  dbs := []
  pexists := fun _ => false
  mtime := fun _ => 0
  activeFiles := [[strOf ("sessions"),
    strOf ("rollout-2026-02-23T04-48-50-019c871c-b1f9-7f60-9c4f-87ed09f13592.jsonl")]]
  archivedFiles := []
  sessionsRoot := [strOf ("sessions")]
  archivedRoot := [strOf ("archived_sessions")]

/-- The session id of the codex fixtures. -/
def codexSidW : Str := strOf ("019c871c-b1f9-7f60-9c4f-87ed09f13592")

/-- Codex environment fixture: a non-archived database row pointing at an
existing rollout, plus a filesystem candidate. -/
def codexEnvDb : CodexEnv where
  dbs := [([strOf ("state.sqlite")],
    .ok (some ⟨[strOf ("sessions"), strOf ("custom"), strOf ("thread.jsonl")],
      false⟩))]
  pexists := fun p => p = [strOf ("sessions"), strOf ("custom"), strOf ("thread.jsonl")]
  mtime := fun _ => 0
  activeFiles := [[strOf ("sessions"),
    strOf ("rollout-2026-02-23T04-48-50-019c871c-b1f9-7f60-9c4f-87ed09f13592.jsonl")]]
  archivedFiles := []
  sessionsRoot := [strOf ("sessions")]
  archivedRoot := [strOf ("archived_sessions")]

/-- Codex environment fixture: a stale non-archived database row (target
missing) plus a filesystem candidate. -/
def codexEnvStale : CodexEnv where
  dbs := [([strOf ("state.sqlite")],
    .ok (some ⟨[strOf ("sessions"), strOf ("stale"), strOf ("thread.jsonl")],
      false⟩))]
  pexists := fun _ => false
  mtime := fun _ => 0
  activeFiles := [[strOf ("sessions"),
    strOf ("rollout-2026-02-23T04-48-50-019c871c-b1f9-7f60-9c4f-87ed09f13592.jsonl")]]
  archivedFiles := []
  sessionsRoot := [strOf ("sessions")]
  archivedRoot := [strOf ("archived_sessions")]

/-- Gemini environment fixture: two matching chat files with distinct
modification times. -/
def geminiEnvW : GeminiEnv where
  tmpRoot := [strOf ("tmp")]
  files := [[strOf ("tmp"), strOf ("hash-a"), strOf ("chats"),
      strOf ("session-1.json")],
    [strOf ("tmp"), strOf ("hash-b"), strOf ("chats"),
      strOf ("session-2.json")]]
  mtime := fun p => if p.headD [] = strOf ("tmp") ∧
    p.getLast? = some (strOf ("session-2.json")) then 5 else 1
  readContent := fun p =>
    if p.getLast? = some (strOf ("session-1.json")) then some (strOf ("g1"))
    else some (strOf ("g2"))

/-- The gemini fixture session id. -/
def geminiSidW : Str := strOf ("29d207db-ca7e-40ba-87f7-e14c9de60613")

/-- Serde model for the gemini fixture: both files carry the session id. -/
def geminiParseW : JParse := fun s =>
  if s = strOf ("g1") ∨ s = strOf ("g2") then
    .ok (.obj [(strOf ("sessionId"), .str geminiSidW)])
  else .error (strOf ("expected value"))

/-- Opencode database fixture: one session, one message, one part. -/
def ocDbW : OcDb where
  sessions := [strOf ("ses_a1")]
  msgRows := [⟨strOf ("msg_1"), strOf ("ses_a1"), 1, strOf ("m1")⟩]
  partRows := [⟨strOf ("prt_1"), strOf ("msg_1"), strOf ("ses_a1"), 1,
    strOf ("p1")⟩]

/-- Serde model for the opencode fixture rows. -/
def ocParseW : JParse := fun s =>
  if s = strOf ("m1") then
    .ok (.obj [(strOf ("role"), .str (strOf ("user")))])
  else if s = strOf ("p1") then
    .ok (.obj [(strOf ("type"), .str (strOf ("text"))),
      (strOf ("text"), .str (strOf ("hello")))])
  else .error (strOf ("expected value"))

/-- Opencode environment fixture. -/
def ocEnvW : OcEnv where
  rootBytes := (strOf ("/root/a")).map Char.toNat
  db := some ocDbW

/-! ## Theorems

General lemmas about the string splitters. -/

/-- Gemini environment fixture: a single matching chat file. -/
def geminiEnvW1 : GeminiEnv where
  tmpRoot := [strOf ("tmp")]
  files := [[strOf ("tmp"), strOf ("hash-a"), strOf ("chats"),
    strOf ("session-1.json")]]
  mtime := fun _ => 1
  readContent := fun _ => some (strOf ("g1"))


/-- A one-line claude thread document (C3 fixture). -/
def c3Line : Str := strOf ("c3")

/-- The JSON value of `c3Line`: an assistant message with text content. -/
def c3Json : Json :=
  .obj [(strOf ("type"), .str (strOf ("assistant"))),
    (strOf ("message"), .obj [(strOf ("role"), .str (strOf ("assistant"))),
      (strOf ("content"), .str (strOf ("hi")))])]

/-- A concrete serde model for the C3 fixture. -/
def c3Parse : JParse := fun s =>
  if s = c3Line then .ok c3Json else .error (strOf ("expected value"))


instance {e a : Type} [DecidableEq e] [DecidableEq a] :
    DecidableEq (Except e a)
  | .ok x, .ok y =>
    if h : x = y then .isTrue (by rw [h])
    else .isFalse (fun hc => h (Except.ok.inj hc))
  | .ok _, .error _ => .isFalse (fun hc => Except.noConfusion hc)
  | .error _, .ok _ => .isFalse (fun hc => Except.noConfusion hc)
  | .error x, .error y =>
    if h : x = y then .isTrue (by rw [h])
    else .isFalse (fun hc => h (Except.error.inj hc))

instance (p : PKind) (s : Str) : Decidable (canonicalSid p s) := by
  unfold canonicalSid; exact inferInstance

instance (p : PKind) (a : Str) : Decidable (agentRoundTrips p a) := by
  unfold agentRoundTrips; exact inferInstance


theorem splitOnce_eq_none {sep : Char} {s : Str} (h : sep ∉ s) :
    splitOnce sep s = none := by
  induction s with
  | nil => rfl
  | cons c rest ih =>
    simp only [List.mem_cons, not_or] at h
    have hcs : ¬c = sep := fun hcc => h.1 hcc.symm
    simp [splitOnce, hcs, ih h.2]

theorem splitOnce_append {sep : Char} {a b : Str} (h : sep ∉ a) :
    splitOnce sep (a ++ sep :: b) = some (a, b) := by
  induction a with
  | nil => simp [splitOnce]
  | cons c rest ih =>
    simp only [List.mem_cons, not_or] at h
    have hcs : ¬c = sep := fun hcc => h.1 hcc.symm
    simp [splitOnce, hcs, ih h.2]

theorem splitOnce_none_not_mem {sep : Char} {s : Str}
    (h : splitOnce sep s = none) : sep ∉ s := by
  induction s with
  | nil => simp
  | cons c rest ih =>
    by_cases hc : c = sep
    · subst hc; simp [splitOnce] at h
    · simp only [splitOnce, if_neg hc] at h
      rcases ho : splitOnce sep rest with _ | pr
      · intro hm
        rcases List.mem_cons.mp hm with hm | hm
        · exact hc hm.symm
        · exact ih ho hm
      · rw [ho] at h; simp at h

theorem splitOnce_cons_self {sep : Char} {rest : Str} :
    splitOnce sep (sep :: rest) = some ([], rest) := by
  simp [splitOnce]

theorem splitOnce_cons_ne {sep c : Char} {rest : Str} (hc : ¬c = sep) :
    splitOnce sep (c :: rest) =
      (splitOnce sep rest).map (fun pr => (c :: pr.1, pr.2)) := by
  simp [splitOnce, hc]

theorem splitOnce_fst_not_mem {sep : Char} {s t q : Str}
    (h : splitOnce sep s = some (t, q)) : sep ∉ t := by
  induction s generalizing t q with
  | nil => simp [splitOnce] at h
  | cons c rest ih =>
    by_cases hc : c = sep
    · subst hc
      rw [splitOnce_cons_self] at h
      simp only [Option.some.injEq, Prod.mk.injEq] at h
      rw [← h.1]
      simp
    · rw [splitOnce_cons_ne hc] at h
      rcases ho : splitOnce sep rest with _ | pr
      · rw [ho] at h; simp at h
      · rw [ho] at h
        simp only [Option.map_some', Option.some.injEq, Prod.mk.injEq] at h
        rw [← h.1]
        intro hm
        rcases List.mem_cons.mp hm with hm | hm
        · exact hc hm.symm
        · exact ih (t := pr.1) (q := pr.2) (by rw [ho]) hm

theorem splitOnce_parts_subset {sep : Char} {s t q : Str}
    (h : splitOnce sep s = some (t, q)) :
    (∀ c ∈ t, c ∈ s) ∧ ∀ c ∈ q, c ∈ s := by
  induction s generalizing t q with
  | nil => simp [splitOnce] at h
  | cons c rest ih =>
    by_cases hc : c = sep
    · subst hc
      rw [splitOnce_cons_self] at h
      simp only [Option.some.injEq, Prod.mk.injEq] at h
      rw [← h.1, ← h.2]
      exact ⟨by simp, fun x hx => List.mem_cons_of_mem _ hx⟩
    · rw [splitOnce_cons_ne hc] at h
      rcases ho : splitOnce sep rest with _ | pr
      · rw [ho] at h; simp at h
      · rw [ho] at h
        simp only [Option.map_some', Option.some.injEq, Prod.mk.injEq] at h
        obtain ⟨ih1, ih2⟩ := ih (t := pr.1) (q := pr.2) (by rw [ho])
        rw [← h.1, ← h.2]
        constructor
        · intro x hx
          rcases List.mem_cons.mp hx with hx | hx
          · simp [hx]
          · exact List.mem_cons_of_mem _ (ih1 x hx)
        · intro x hx; exact List.mem_cons_of_mem _ (ih2 x hx)

theorem splitScheme_cons_ne {c : Char} {s : Str} (h : ¬c = ':') :
    splitScheme (c :: s) =
      (splitScheme s).map (fun pr => (c :: pr.1, pr.2)) := by
  rw [splitScheme.eq_def]
  split
  · rename_i heq
    injection heq with h1 _
    exact absurd h1 h
  · rename_i heq
    injection heq with h1 h2
    subst h1; subst h2
    rfl
  · rename_i heq
    exact absurd heq (by simp)

theorem splitScheme_append {a b : Str} (h : ':' ∉ a) :
    splitScheme (a ++ ':' :: '/' :: '/' :: b) = some (a, b) := by
  induction a with
  | nil => simp [splitScheme]
  | cons c rest ih =>
    simp only [List.mem_cons, not_or] at h
    have hcs : ¬c = ':' := fun hcc => h.1 hcc.symm
    rw [List.cons_append, splitScheme_cons_ne hcs, ih h.2, Option.map_some']

theorem splitScheme_parts_subset {s a t : Str}
    (h : splitScheme s = some (a, t)) :
    (∀ c ∈ a, c ∈ s) ∧ ∀ c ∈ t, c ∈ s := by
  induction s generalizing a t with
  | nil => simp [splitScheme] at h
  | cons c rest ih =>
    by_cases hc : c = ':'
    · subst hc
      rw [splitScheme.eq_def] at h
      split at h
      · rename_i heq
        injection heq with _ heq
        subst heq
        simp only [Option.some.injEq, Prod.mk.injEq] at h
        rw [← h.1, ← h.2]
        constructor
        · simp
        · intro x hx
          exact List.mem_cons_of_mem _
            (List.mem_cons_of_mem _ (List.mem_cons_of_mem _ hx))
      · rename_i heq
        injection heq with h1 h2
        subst h1; subst h2
        rcases ho : splitScheme rest with _ | pr
        · rw [ho] at h; simp at h
        · rw [ho] at h
          simp only [Option.map_some', Option.some.injEq, Prod.mk.injEq] at h
          obtain ⟨ih1, ih2⟩ := ih (a := pr.1) (t := pr.2) ho
          rw [← h.1, ← h.2]
          constructor
          · intro x hx
            rcases List.mem_cons.mp hx with hx | hx
            · simp [hx]
            · exact List.mem_cons_of_mem _ (ih1 x hx)
          · intro x hx; exact List.mem_cons_of_mem _ (ih2 x hx)
      · rename_i heq
        exact absurd heq (by simp)
    · rw [splitScheme_cons_ne hc] at h
      rcases ho : splitScheme rest with _ | pr
      · rw [ho] at h; simp at h
      · rw [ho] at h
        simp only [Option.map_some', Option.some.injEq, Prod.mk.injEq] at h
        obtain ⟨ih1, ih2⟩ := ih (a := pr.1) (t := pr.2) ho
        rw [← h.1, ← h.2]
        constructor
        · intro x hx
          rcases List.mem_cons.mp hx with hx | hx
          · simp [hx]
          · exact List.mem_cons_of_mem _ (ih1 x hx)
        · intro x hx; exact List.mem_cons_of_mem _ (ih2 x hx)

theorem splitAll_ne_nil {sep : Char} {s : Str} : splitAll sep s ≠ [] := by
  cases s with
  | nil => simp [splitAll]
  | cons c rest =>
    by_cases hc : c = sep
    · simp [splitAll, hc]
    · simp only [splitAll, if_neg hc]
      rcases splitAll sep rest with _ | ⟨p, ps⟩ <;> simp

theorem splitAll_no_sep {sep : Char} {s : Str} (h : sep ∉ s) :
    splitAll sep s = [s] := by
  induction s with
  | nil => rfl
  | cons c rest ih =>
    simp only [List.mem_cons, not_or] at h
    have hcs : ¬c = sep := fun hcc => h.1 hcc.symm
    simp [splitAll, hcs, ih h.2]

theorem splitAll_append {sep : Char} {a b : Str} (h : sep ∉ a) :
    splitAll sep (a ++ sep :: b) = a :: splitAll sep b := by
  induction a with
  | nil => simp [splitAll]
  | cons c rest ih =>
    simp only [List.mem_cons, not_or] at h
    have hcs : ¬c = sep := fun hcc => h.1 hcc.symm
    rw [List.cons_append]
    simp only [splitAll, if_neg hcs, ih h.2]

theorem mem_splitAll {sep : Char} {s : Str} {p : Str} {c : Char}
    (hp : p ∈ splitAll sep s) (hc : c ∈ p) : c ∈ s ∧ ¬c = sep := by
  induction s generalizing p with
  | nil =>
    simp only [splitAll, List.mem_singleton] at hp
    subst hp
    simp at hc
  | cons d rest ih =>
    by_cases hd : d = sep
    · rw [show splitAll sep (d :: rest) = [] :: splitAll sep rest from by
        simp [splitAll, hd]] at hp
      rcases List.mem_cons.mp hp with hp | hp
      · subst hp; simp at hc
      · obtain ⟨h1, h2⟩ := ih hp hc
        exact ⟨List.mem_cons_of_mem _ h1, h2⟩
    · have hrw : splitAll sep (d :: rest) =
          match splitAll sep rest with
          | q :: qs => (d :: q) :: qs
          | [] => [[d]] := by
        simp [splitAll, hd]
      rcases hq : splitAll sep rest with _ | ⟨q, qs⟩
      · exact absurd hq splitAll_ne_nil
      · rw [hrw, hq] at hp
        rcases List.mem_cons.mp hp with hp | hp
        · subst hp
          rcases List.mem_cons.mp hc with hc | hc
          · subst hc; exact ⟨List.mem_cons_self _ _, hd⟩
          · obtain ⟨h1, h2⟩ := ih (p := q)
              (by rw [hq]; exact List.mem_cons_self _ _) hc
            exact ⟨List.mem_cons_of_mem _ h1, h2⟩
        · obtain ⟨h1, h2⟩ := ih (p := p)
            (by rw [hq]; exact List.mem_cons_of_mem _ hp) hc
          exact ⟨List.mem_cons_of_mem _ h1, h2⟩

/-! Lemmas about the id grammars: well-shaped ids have constrained character
sets, so they contain no separator, query or scheme characters. -/

theorem hexTake_decomp {n : Nat} {s r : Str} (h : hexTake n s = some r) :
    ∃ t, s = t ++ r ∧ t.length = n ∧ ∀ c ∈ t, hexDigitB c = true := by
  induction n generalizing s with
  | zero =>
    simp only [hexTake, Option.some.injEq] at h
    exact ⟨[], by simp [h]⟩
  | succ n ih =>
    cases s with
    | nil => simp [hexTake] at h
    | cons c rest =>
      by_cases hx : hexDigitB c
      · simp only [hexTake, if_pos hx] at h
        obtain ⟨t, ht, hlen, hall⟩ := ih h
        refine ⟨c :: t, by simp [ht], by simp [hlen], ?_⟩
        intro x hxm
        rcases List.mem_cons.mp hxm with hxm | hxm
        · subst hxm; exact hx
        · exact hall x hxm
      · simp [hexTake, hx] at h

theorem dashTake_decomp {s r : Str} (h : dashTake s = some r) :
    s = '-' :: r := by
  cases s with
  | nil => simp [dashTake] at h
  | cons c rest =>
    rw [dashTake.eq_def] at h
    split at h
    · rename_i heq
      injection heq with h1 h2
      subst h1; subst h2
      simp only [Option.some.injEq] at h
      rw [h]
    · simp at h

theorem uuidShape_decomp {s : Str} (h : uuidShape s = true) :
    ∃ t1 t2 t3 t4 t5, s = t1 ++ '-' :: t2 ++ '-' :: t3 ++ '-' :: t4 ++
        '-' :: t5 ∧
      t1.length = 8 ∧ t2.length = 4 ∧ t3.length = 4 ∧ t4.length = 4 ∧
      t5.length = 12 ∧
      (∀ c ∈ t1, hexDigitB c = true) ∧ (∀ c ∈ t2, hexDigitB c = true) ∧
      (∀ c ∈ t3, hexDigitB c = true) ∧ (∀ c ∈ t4, hexDigitB c = true) ∧
      ∀ c ∈ t5, hexDigitB c = true := by
  unfold uuidShape at h
  rcases hu : uuidTake s with _ | r
  · rw [hu] at h; simp at h
  · rw [hu] at h
    rcases r with _ | _
    · unfold uuidTake at hu
      rcases h1 : hexTake 8 s with _ | r1
      · rw [h1] at hu; simp at hu
      rw [h1] at hu
      simp only [Option.bind_eq_bind, Option.some_bind] at hu
      rcases h2 : dashTake r1 with _ | r2
      · rw [h2] at hu; simp at hu
      rw [h2] at hu
      simp only [Option.some_bind] at hu
      rcases h3 : hexTake 4 r2 with _ | r3
      · rw [h3] at hu; simp at hu
      rw [h3] at hu
      simp only [Option.some_bind] at hu
      rcases h4 : dashTake r3 with _ | r4
      · rw [h4] at hu; simp at hu
      rw [h4] at hu
      simp only [Option.some_bind] at hu
      rcases h5 : hexTake 4 r4 with _ | r5
      · rw [h5] at hu; simp at hu
      rw [h5] at hu
      simp only [Option.some_bind] at hu
      rcases h6 : dashTake r5 with _ | r6
      · rw [h6] at hu; simp at hu
      rw [h6] at hu
      simp only [Option.some_bind] at hu
      rcases h7 : hexTake 4 r6 with _ | r7
      · rw [h7] at hu; simp at hu
      rw [h7] at hu
      simp only [Option.some_bind] at hu
      rcases h8 : dashTake r7 with _ | r8
      · rw [h8] at hu; simp at hu
      rw [h8] at hu
      simp only [Option.some_bind] at hu
      obtain ⟨t1, e1, l1, a1⟩ := hexTake_decomp h1
      obtain e2 := dashTake_decomp h2
      obtain ⟨t2, e3, l2, a2⟩ := hexTake_decomp h3
      obtain e4 := dashTake_decomp h4
      obtain ⟨t3, e5, l3, a3⟩ := hexTake_decomp h5
      obtain e6 := dashTake_decomp h6
      obtain ⟨t4, e7, l4, a4⟩ := hexTake_decomp h7
      obtain e8 := dashTake_decomp h8
      obtain ⟨t5, e9, l5, a5⟩ := hexTake_decomp hu
      refine ⟨t1, t2, t3, t4, t5, ?_, l1, l2, l3, l4, ?_, a1, a2, a3, a4, a5⟩
      · rw [e1, e2, e3, e4, e5, e6, e7, e8, e9]
        simp
      · have := congrArg List.length e9
        simp at this
        omega
    · simp at h

theorem uuidShape_mem {s : Str} {c : Char} (h : uuidShape s = true)
    (hc : c ∈ s) : hexDigitB c = true ∨ c = '-' := by
  obtain ⟨t1, t2, t3, t4, t5, hs, _, _, _, _, _, a1, a2, a3, a4, a5⟩ :=
    uuidShape_decomp h
  subst hs
  simp only [List.mem_append, List.mem_cons] at hc
  have hcc : c ∈ t1 ∨ c ∈ t2 ∨ c ∈ t3 ∨ c ∈ t4 ∨ c ∈ t5 ∨ c = '-' := by
    tauto
  rcases hcc with hc2 | hc2 | hc2 | hc2 | hc2 | hc2
  · exact Or.inl (a1 c hc2)
  · exact Or.inl (a2 c hc2)
  · exact Or.inl (a3 c hc2)
  · exact Or.inl (a4 c hc2)
  · exact Or.inl (a5 c hc2)
  · exact Or.inr hc2

theorem uuidShape_ne_nil {s : Str} (h : uuidShape s = true) : s ≠ [] := by
  obtain ⟨t1, _, _, _, _, hs, l1, _⟩ := uuidShape_decomp h
  subst hs
  cases t1 with
  | nil => simp at l1
  | cons c t => simp

theorem uuidShape_head_hex {s : Str} (h : uuidShape s = true) :
    ∃ c rest, s = c :: rest ∧ hexDigitB c = true := by
  obtain ⟨t1, t2, t3, t4, t5, hs, l1, _, _, _, _, a1, _⟩ := uuidShape_decomp h
  cases t1 with
  | nil => simp at l1
  | cons c t =>
    subst hs
    refine ⟨c, t ++ '-' :: t2 ++ '-' :: t3 ++ '-' :: t4 ++ '-' :: t5,
      by simp, a1 c (List.mem_cons_self _ _)⟩

theorem ampShape_decomp {s : Str} (h : ampShape s = true) :
    ∃ c rest, s = c :: '-' :: rest ∧ (c = 't' ∨ c = 'T') ∧
      uuidShape rest = true := by
  rw [ampShape.eq_def] at h
  split at h
  · rename_i c rest
    simp only [Bool.and_eq_true, decide_eq_true_eq] at h
    refine ⟨c, rest, rfl, ?_, h.2⟩
    rcases h.1 with h1 | h1
    · exact Or.inl (by simpa using h1)
    · exact Or.inr (by simpa using h1)
  · simp at h

theorem ampShape_mem {s : Str} {c : Char} (h : ampShape s = true)
    (hc : c ∈ s) : hexDigitB c = true ∨ c = '-' ∨ c = 't' ∨ c = 'T' := by
  obtain ⟨c0, rest, hs, hc0, hu⟩ := ampShape_decomp h
  subst hs
  rcases List.mem_cons.mp hc with hc | hc
  · subst hc
    rcases hc0 with h1 | h1
    · exact Or.inr (Or.inr (Or.inl h1))
    · exact Or.inr (Or.inr (Or.inr h1))
  · rcases List.mem_cons.mp hc with hc | hc
    · exact Or.inr (Or.inl hc)
    · rcases uuidShape_mem hu hc with h1 | h1
      · exact Or.inl h1
      · exact Or.inr (Or.inl h1)

theorem opShape_decomp {s : Str} (h : opShape s = true) :
    ∃ rest, s = 's' :: 'e' :: 's' :: '_' :: rest ∧ rest ≠ [] ∧
      ∀ c ∈ rest, alnumB c = true := by
  rw [opShape.eq_def] at h
  split at h
  · rename_i rest
    simp only [Bool.and_eq_true, List.all_eq_true, Bool.not_eq_true'] at h
    refine ⟨rest, rfl, ?_, fun c hc => h.2 c hc⟩
    intro hn
    rw [hn] at h
    simp at h
  · simp at h

theorem opShape_mem {s : Str} {c : Char} (h : opShape s = true) (hc : c ∈ s) :
    alnumB c = true ∨ c = 's' ∨ c = 'e' ∨ c = '_' := by
  obtain ⟨rest, hs, _, ha⟩ := opShape_decomp h
  subst hs
  rcases List.mem_cons.mp hc with hc | hc
  · exact Or.inr (Or.inl hc)
  rcases List.mem_cons.mp hc with hc | hc
  · exact Or.inr (Or.inr (Or.inl hc))
  rcases List.mem_cons.mp hc with hc | hc
  · exact Or.inr (Or.inl hc)
  rcases List.mem_cons.mp hc with hc | hc
  · exact Or.inr (Or.inr (Or.inr hc))
  · exact Or.inl (ha c hc)

theorem sidGrammar_ne_nil {p : PKind} {s : Str}
    (h : sidGrammar p s = true) : s ≠ [] := by
  cases p <;> simp only [sidGrammar] at h
  · obtain ⟨c, rest, hs, _⟩ := ampShape_decomp h
    subst hs; simp
  · exact uuidShape_ne_nil h
  · exact uuidShape_ne_nil h
  · exact uuidShape_ne_nil h
  · exact uuidShape_ne_nil h
  · obtain ⟨rest, hs, _⟩ := opShape_decomp h
    subst hs; simp

theorem sidGrammar_no_slash {p : PKind} {s : Str}
    (h : sidGrammar p s = true) : '/' ∉ s := by
  intro hm
  cases p <;> simp only [sidGrammar] at h
  · rcases ampShape_mem h hm with h1 | h1 | h1 | h1 <;>
      exact absurd h1 (by decide)
  · rcases uuidShape_mem h hm with h1 | h1 <;> exact absurd h1 (by decide)
  · rcases uuidShape_mem h hm with h1 | h1 <;> exact absurd h1 (by decide)
  · rcases uuidShape_mem h hm with h1 | h1 <;> exact absurd h1 (by decide)
  · rcases uuidShape_mem h hm with h1 | h1 <;> exact absurd h1 (by decide)
  · rcases opShape_mem h hm with h1 | h1 | h1 | h1 <;>
      exact absurd h1 (by decide)

theorem sidGrammar_no_qmark {p : PKind} {s : Str}
    (h : sidGrammar p s = true) : '?' ∉ s := by
  intro hm
  cases p <;> simp only [sidGrammar] at h
  · rcases ampShape_mem h hm with h1 | h1 | h1 | h1 <;>
      exact absurd h1 (by decide)
  · rcases uuidShape_mem h hm with h1 | h1 <;> exact absurd h1 (by decide)
  · rcases uuidShape_mem h hm with h1 | h1 <;> exact absurd h1 (by decide)
  · rcases uuidShape_mem h hm with h1 | h1 <;> exact absurd h1 (by decide)
  · rcases uuidShape_mem h hm with h1 | h1 <;> exact absurd h1 (by decide)
  · rcases opShape_mem h hm with h1 | h1 | h1 | h1 <;>
      exact absurd h1 (by decide)

theorem uuid_not_threads_start {s x : Str} (h : uuidShape s = true) :
    strStarts (strOf ("threads/")) (s ++ x) = false := by
  obtain ⟨c, rest, hs, hc⟩ := uuidShape_head_hex h
  subst hs
  have : ¬('t' = c) := by
    intro he
    rw [← he] at hc
    simp [hexDigitB] at hc
  simp [strOf, strStarts, this]

theorem ne_nil_isEmpty_false {s : Str} (h : s ≠ []) : s.isEmpty = false := by
  cases s with
  | nil => exact absurd rfl h
  | cons c rest => rfl

theorem strOf_scheme_cons (x : Str) :
    strOf ("://") ++ x = ':' :: '/' :: '/' :: x := rfl

theorem parseProviderK_provName (p : PKind) :
    parseProviderK (provName p) = .ok p := by
  cases p <;> rfl

theorem provName_no_colon (p : PKind) : ':' ∉ provName p := by
  cases p <;> decide

theorem provName_ne_agents (p : PKind) : ¬provName p = strOf ("agents") := by
  cases p <;> decide

theorem parseLegacyTarget_single {p : PKind} {sid : Str} (input : Str)
    (hsid : sidGrammar p sid = true) :
    parseLegacyTarget (provName p) sid input = .ok (p, sid, none, false) := by
  have hslash := sidGrammar_no_slash hsid
  have hempty := ne_nil_isEmpty_false (sidGrammar_ne_nil hsid)
  have hparts : splitAll '/' sid = [sid] := splitAll_no_sep hslash
  cases p <;>
    simp only [parseLegacyTarget, parseProviderK_provName, hparts] <;>
    simp [hempty]
  · -- codex strip_prefix "threads/"
    have hts : strStarts (strOf ("threads/")) sid = false := by
      have := uuid_not_threads_start (x := ([] : Str)) hsid
      rwa [List.append_nil] at this
    simp [stripPre, hts, hparts, hempty, sidGrammar_ne_nil hsid]

theorem parseLegacyTarget_pair {p : PKind} {sid a : Str} (input : Str)
    (hsid : sidGrammar p sid = true) (ha : a ≠ []) (haslash : '/' ∉ a) :
    parseLegacyTarget (provName p) (sid ++ '/' :: a) input =
      .ok (p, sid, some a, false) := by
  have hslash := sidGrammar_no_slash hsid
  have hempty := ne_nil_isEmpty_false (sidGrammar_ne_nil hsid)
  have hparts : splitAll '/' (sid ++ '/' :: a) = [sid, a] := by
    rw [splitAll_append hslash, splitAll_no_sep haslash]
  have haempty := ne_nil_isEmpty_false ha
  cases p <;>
    simp only [parseLegacyTarget, parseProviderK_provName, hparts] <;>
    simp [hempty, haempty, ha]
  · have hts : strStarts (strOf ("threads/")) (sid ++ '/' :: a) = false :=
      uuid_not_threads_start (x := '/' :: a) hsid
    simp [stripPre, hts, hparts, hempty, haempty, ha, sidGrammar_ne_nil hsid]

theorem buildAgentsUri_main {p : PKind} {sid : Str} {ag : Option Str}
    {allows : Bool} (q : List (Str × Option Str)) (input : Str)
    (hsid : sidGrammar p sid = true)
    (hamp : p = .amp → ∀ a, ag = some a → ampShape a = true)
    (hop : p = .opencode → ∀ a, ag = some a →
      opShape (canonAgent p a) = true) :
    buildAgentsUri p sid ag allows q input =
      .ok ⟨p, canonSid p sid, ag.map (canonAgent p), q⟩ := by
  have hempty := ne_nil_isEmpty_false (sidGrammar_ne_nil hsid)
  rcases ag with _ | a
  · simp [buildAgentsUri, hempty, hsid]
  · have h1 : (p == PKind.amp && !ampShape a) = false := by
      by_cases hp : p = PKind.amp
      · subst hp
        rw [hamp rfl a rfl]
        simp
      · have hb : (p == PKind.amp) = false := beq_eq_false_iff_ne.mpr hp
        rw [hb]
        simp
    have h2 : (p == PKind.opencode && !opShape (canonAgent p a)) = false := by
      by_cases hp : p = PKind.opencode
      · subst hp
        rw [hop rfl a rfl]
        simp
      · have hb : (p == PKind.opencode) = false := beq_eq_false_iff_ne.mpr hp
        rw [hb]
        simp
    simp [buildAgentsUri, hempty, hsid, h1, h2]

theorem provName_no_slash (p : PKind) : '/' ∉ provName p := by
  cases p <;> decide

theorem provName_ne_nil (p : PKind) : (provName p).isEmpty = false := by
  cases p <;> decide

theorem sid_ne_threads {p : PKind} {sid : Str} (hsid : sidGrammar p sid = true)
    (hp : p = PKind.codex) : ¬sid = strOf ("threads") := by
  intro he
  subst hp
  rw [he] at hsid
  exact absurd hsid (by decide)

theorem parseAgentsTarget_single {p : PKind} {sid : Str} (input : Str)
    (hsid : sidGrammar p sid = true) :
    parseAgentsTarget (provName p ++ '/' :: sid) input =
      .ok (p, sid, none, true) := by
  have hsegs : splitAll '/' (provName p ++ '/' :: sid) =
      [provName p, sid] := by
    rw [splitAll_append (provName_no_slash p),
      splitAll_no_sep (sidGrammar_no_slash hsid)]
  simp only [parseAgentsTarget, hsegs]
  simp [provName_ne_nil p, parseProviderK_provName,
    ne_nil_isEmpty_false (sidGrammar_ne_nil hsid)]

theorem parseAgentsTarget_pair {p : PKind} {sid a : Str} (input : Str)
    (hsid : sidGrammar p sid = true) (ha : a ≠ []) (haslash : '/' ∉ a) :
    parseAgentsTarget (provName p ++ '/' :: (sid ++ '/' :: a)) input =
      .ok (p, sid, some a, true) := by
  have hsegs : splitAll '/' (provName p ++ '/' :: (sid ++ '/' :: a)) =
      [provName p, sid, a] := by
    rw [splitAll_append (provName_no_slash p)]
    rw [splitAll_append (sidGrammar_no_slash hsid),
      splitAll_no_sep haslash]
  simp only [parseAgentsTarget, hsegs]
  have hth : ¬(p = PKind.codex ∧ sid = strOf ("threads")) := by
    rintro ⟨hp, hh⟩
    exact sid_ne_threads hsid hp hh
  simp [provName_ne_nil p, parseProviderK_provName,
    ne_nil_isEmpty_false (sidGrammar_ne_nil hsid), ne_nil_isEmpty_false ha,
    hth]

theorem parseAgentsUri_legacy_single {p : PKind} {sid : Str}
    (hsid : sidGrammar p sid = true) :
    parseAgentsUri (provName p ++ strOf ("://") ++ sid) =
      .ok ⟨p, canonSid p sid, none, []⟩ := by
  have hsplit : splitScheme (provName p ++ strOf ("://") ++ sid) =
      some (provName p, sid) := by
    rw [List.append_assoc, strOf_scheme_cons]
    exact splitScheme_append (provName_no_colon p)
  have hq : splitOnce '?' sid = none :=
    splitOnce_eq_none (sidGrammar_no_qmark hsid)
  simp only [parseAgentsUri, hsplit, hq, parseQuery,
    provName_ne_agents p, if_false, reduceIte,
    parseLegacyTarget_single _ hsid]
  exact buildAgentsUri_main [] _ hsid (fun _ a h => by cases h)
    (fun _ a h => by cases h)

theorem agents_scheme_cons (x : Str) :
    strOf ("agents://") ++ x = strOf ("agents") ++ (':' :: '/' :: '/' :: x) :=
  rfl

theorem provName_no_qmark (p : PKind) : '?' ∉ provName p := by
  cases p <;> decide

theorem parseAgentsUri_legacy_pair {p : PKind} {sid a : Str}
    (hsid : sidGrammar p sid = true) (ha : a ≠ []) (haslash : '/' ∉ a)
    (haq : '?' ∉ a) (hampa : p = .amp → ampShape a = true)
    (hopa : p = .opencode → opShape (canonAgent p a) = true) :
    parseAgentsUri (provName p ++ strOf ("://") ++ sid ++ '/' :: a) =
      .ok ⟨p, canonSid p sid, some (canonAgent p a), []⟩ := by
  have hsplit : splitScheme (provName p ++ strOf ("://") ++ sid ++ '/' :: a) =
      some (provName p, sid ++ '/' :: a) := by
    rw [List.append_assoc, List.append_assoc, strOf_scheme_cons]
    exact splitScheme_append (provName_no_colon p)
  have hq : splitOnce '?' (sid ++ '/' :: a) = none := by
    refine splitOnce_eq_none ?_
    intro hm
    rcases List.mem_append.mp hm with hm | hm
    · exact sidGrammar_no_qmark hsid hm
    · rcases List.mem_cons.mp hm with hm | hm
      · exact absurd hm (by decide)
      · exact haq hm
  simp only [parseAgentsUri, hsplit, hq, parseQuery,
    provName_ne_agents p, if_false, reduceIte,
    parseLegacyTarget_pair _ hsid ha haslash]
  exact buildAgentsUri_main [] _ hsid
    (fun hp a2 h => by cases h; exact hampa hp)
    (fun hp a2 h => by cases h; exact hopa hp)

theorem parseAgentsUri_agents_single {p : PKind} {sid : Str}
    (hsid : sidGrammar p sid = true) :
    parseAgentsUri (strOf ("agents://") ++ provName p ++ '/' :: sid) =
      .ok ⟨p, canonSid p sid, none, []⟩ := by
  have hsplit : splitScheme (strOf ("agents://") ++ provName p ++ '/' :: sid) =
      some (strOf ("agents"), provName p ++ '/' :: sid) := by
    rw [List.append_assoc, agents_scheme_cons]
    exact splitScheme_append (by decide)
  have hq : splitOnce '?' (provName p ++ '/' :: sid) = none := by
    refine splitOnce_eq_none ?_
    intro hm
    rcases List.mem_append.mp hm with hm | hm
    · exact provName_no_qmark p hm
    · rcases List.mem_cons.mp hm with hm | hm
      · exact absurd hm (by decide)
      · exact sidGrammar_no_qmark hsid hm
  simp only [parseAgentsUri, hsplit, hq, parseQuery, reduceIte,
    parseAgentsTarget_single _ hsid]
  exact buildAgentsUri_main [] _ hsid (fun _ a h => by cases h)
    (fun _ a h => by cases h)

theorem parseAgentsUri_agents_pair {p : PKind} {sid a : Str}
    (hsid : sidGrammar p sid = true) (ha : a ≠ []) (haslash : '/' ∉ a)
    (haq : '?' ∉ a) (hampa : p = .amp → ampShape a = true)
    (hopa : p = .opencode → opShape (canonAgent p a) = true) :
    parseAgentsUri
        (strOf ("agents://") ++ provName p ++ '/' :: sid ++ '/' :: a) =
      .ok ⟨p, canonSid p sid, some (canonAgent p a), []⟩ := by
  have hrw : provName p ++ '/' :: sid ++ '/' :: a =
      provName p ++ '/' :: (sid ++ '/' :: a) := by
    simp
  have hsplit : splitScheme
      (strOf ("agents://") ++ provName p ++ '/' :: sid ++ '/' :: a) =
      some (strOf ("agents"), provName p ++ '/' :: sid ++ '/' :: a) := by
    rw [List.append_assoc, List.append_assoc, agents_scheme_cons]
    rw [show strOf ("agents") ++
        (':' :: '/' :: '/' :: (provName p ++ ('/' :: sid ++ '/' :: a))) =
        strOf ("agents") ++
        ':' :: '/' :: '/' :: (provName p ++ '/' :: sid ++ '/' :: a) from by
      simp]
    rw [List.append_assoc]
    exact splitScheme_append (by decide)
  have hq : splitOnce '?' (provName p ++ '/' :: sid ++ '/' :: a) = none := by
    refine splitOnce_eq_none ?_
    intro hm
    rcases List.mem_append.mp hm with hm | hm
    · rcases List.mem_append.mp hm with hm | hm
      · exact provName_no_qmark p hm
      · rcases List.mem_cons.mp hm with hm | hm
        · exact absurd hm (by decide)
        · exact sidGrammar_no_qmark hsid hm
    · rcases List.mem_cons.mp hm with hm | hm
      · exact absurd hm (by decide)
      · exact haq hm
  simp only [parseAgentsUri, hsplit, hq, parseQuery, reduceIte]
  rw [show (provName p ++ '/' :: sid ++ '/' :: a : Str) =
      provName p ++ '/' :: (sid ++ '/' :: a) from by simp]
  rw [parseAgentsTarget_pair _ hsid ha haslash]
  exact buildAgentsUri_main [] _ hsid
    (fun hp a2 h => by cases h; exact hampa hp)
    (fun hp a2 h => by cases h; exact hopa hp)

theorem char_toNat_ofNat {n : Nat} (h : n.isValidChar) :
    (Char.ofNat n).toNat = n := by
  unfold Char.ofNat
  rw [dif_pos h]
  unfold Char.ofNatAux Char.toNat
  rfl

theorem char_le_toNat {a b : Char} (h : a ≤ b) : a.toNat ≤ b.toNat := by
  exact h

theorem lowerChar_eq_qmark {c : Char} (h : lowerChar c = '?') : c = '?' := by
  unfold lowerChar at h
  split at h
  · rename_i hr
    have h90 : c.toNat ≤ 90 := char_le_toNat hr.2
    have h65 : 65 ≤ c.toNat := char_le_toNat hr.1
    have hv : (c.toNat + 32).isValidChar := by
      left
      omega
    have h1 : c.toNat + 32 = 63 := by
      have h2 := congrArg Char.toNat h
      rwa [char_toNat_ofNat hv] at h2
    omega
  · exact h

theorem canonSid_no_qmark {p : PKind} {rid : Str} (h : '?' ∉ rid) :
    '?' ∉ canonSid p rid := by
  intro hm
  cases p <;> simp only [canonSid] at hm
  · rcases List.mem_cons.mp hm with hm | hm
    · exact absurd hm (by decide)
    rcases List.mem_cons.mp hm with hm | hm
    · exact absurd hm (by decide)
    obtain ⟨c, hc, he⟩ := List.mem_map.mp hm
    rw [lowerChar_eq_qmark he] at hc
    exact h (List.mem_of_mem_drop hc)
  all_goals
    first
    | (obtain ⟨c, hc, he⟩ := List.mem_map.mp hm
       rw [lowerChar_eq_qmark he] at hc
       exact h hc)
    | exact h hm

theorem canonAgent_no_qmark {p : PKind} {a : Str} (h : '?' ∉ a) :
    '?' ∉ canonAgent p a := by
  intro hm
  unfold canonAgent at hm
  split at hm
  · rcases List.mem_cons.mp hm with hm2 | hm2
    · exact absurd hm2 (by decide)
    rcases List.mem_cons.mp hm2 with hm2 | hm2
    · exact absurd hm2 (by decide)
    obtain ⟨c, hc, he⟩ := List.mem_map.mp hm2
    rw [lowerChar_eq_qmark he] at hc
    exact h (List.mem_of_mem_drop hc)
  · split at hm
    · obtain ⟨c, hc, he⟩ := List.mem_map.mp hm
      rw [lowerChar_eq_qmark he] at hc
      exact h hc
    · exact h hm

theorem buildAgentsUri_ok_inv {p : PKind} {rid : Str} {rag : Option Str}
    {allows : Bool} {q : List (Str × Option Str)} {input : Str}
    {u : AgentsUri} (h : buildAgentsUri p rid rag allows q input = .ok u) :
    u.provider = p ∧ u.query = q ∧
      ((u.session_id = [] ∧ u.agent_id = none) ∨
        (rid ≠ [] ∧ u.session_id = canonSid p rid ∧
          u.agent_id = rag.map (canonAgent p))) := by
  by_cases hrid : rid.isEmpty = true
  · rw [buildAgentsUri.eq_def, if_pos hrid] at h
    split at h
    · cases h
    · injection h with h
      subst h
      exact ⟨rfl, rfl, Or.inl ⟨rfl, rfl⟩⟩
  · rw [buildAgentsUri.eq_def, if_neg hrid] at h
    have hne : rid ≠ [] := by
      intro he
      subst he
      exact hrid rfl
    split at h
    · cases h
    · split at h
      · cases h
      · dsimp only [] at h
        split at h
        · cases h
        · injection h with h
          subst h
          exact ⟨rfl, rfl, Or.inr ⟨hne, rfl, rfl⟩⟩

theorem parseAgentsTarget_sub {t input : Str} {p : PKind} {rid : Str}
    {rag : Option Str} {b : Bool}
    (h : parseAgentsTarget t input = .ok (p, rid, rag, b)) :
    (∀ c ∈ rid, c ∈ t ∧ ¬c = '/') ∧
      ∀ a, rag = some a → ∀ c ∈ a, c ∈ t ∧ ¬c = '/' := by
  unfold parseAgentsTarget at h
  dsimp only [] at h
  split at h
  · cases h
  · split at h
    · cases h
    · rename_i provider hprov
      split at h
      · cases h
      · have hsub : ∀ x, x ∈ (if provider = PKind.codex ∧
            (splitAll '/' t).tail.length ≥ 2 ∧
            (splitAll '/' t).tail.headD [] = strOf ("threads")
            then (splitAll '/' t).tail.tail else (splitAll '/' t).tail) →
            x ∈ splitAll '/' t := by
          intro x hx
          split at hx
          · exact List.tail_subset _ (List.tail_subset _ hx)
          · exact List.tail_subset _ hx
        split at h
        · injection h with h
          rw [Prod.mk.injEq] at h
          obtain ⟨hp, h⟩ := h
          rw [Prod.mk.injEq] at h
          obtain ⟨hrid, h⟩ := h
          rw [Prod.mk.injEq] at h
          obtain ⟨hrag, _⟩ := h
          subst hrid
          subst hrag
          exact ⟨by simp, by simp⟩
        · rename_i mainId heq
          injection h with h
          rw [Prod.mk.injEq] at h
          obtain ⟨hp, h⟩ := h
          rw [Prod.mk.injEq] at h
          obtain ⟨hrid, h⟩ := h
          rw [Prod.mk.injEq] at h
          obtain ⟨hrag, _⟩ := h
          subst hrid
          subst hrag
          have hm : mainId ∈ splitAll '/' t := by
            apply hsub
            rw [heq]
            exact List.mem_cons_self _ _
          refine ⟨fun c hc => mem_splitAll hm hc, by simp⟩
        · rename_i mainId agentId heq
          injection h with h
          rw [Prod.mk.injEq] at h
          obtain ⟨hp, h⟩ := h
          rw [Prod.mk.injEq] at h
          obtain ⟨hrid, h⟩ := h
          rw [Prod.mk.injEq] at h
          obtain ⟨hrag, _⟩ := h
          subst hrid
          have hm : mainId ∈ splitAll '/' t := by
            apply hsub
            rw [heq]
            exact List.mem_cons_self _ _
          have hma : agentId ∈ splitAll '/' t := by
            apply hsub
            rw [heq]
            exact List.mem_cons_of_mem _ (List.mem_cons_self _ _)
          refine ⟨fun c hc => mem_splitAll hm hc, ?_⟩
          intro a ha c hc
          rw [← hrag] at ha
          injection ha with ha
          subst ha
          exact mem_splitAll hma hc
        · cases h

theorem headD_mem {l : List Str} (h : l ≠ []) : l.headD [] ∈ l := by
  cases l with
  | nil => exact absurd rfl h
  | cons x xs => exact List.mem_cons_self _ _

theorem getElem1_mem {l : List Str} {a : Str} (h : l[1]? = some a) : a ∈ l := by
  cases l with
  | nil => simp at h
  | cons x xs =>
    cases xs with
    | nil => simp at h
    | cons y ys =>
      simp only [List.getElem?_cons_succ, List.getElem?_cons_zero,
        Option.some.injEq] at h
      subst h
      exact List.mem_cons_of_mem _ (List.mem_cons_self _ _)

theorem partsExtract_sub {norm t : Str} {rid : Str} {rag : Option Str}
    (hsub : ∀ c, c ∈ norm → c ∈ t)
    (hmain : (splitAll '/' norm).headD [] = rid)
    (hag : (splitAll '/' norm)[1]? = rag) :
    (∀ c ∈ rid, c ∈ t ∧ ¬c = '/') ∧
      ∀ a, rag = some a → ∀ c ∈ a, c ∈ t ∧ ¬c = '/' := by
  constructor
  · intro c hc
    rw [← hmain] at hc
    have hm := headD_mem (l := splitAll '/' norm) splitAll_ne_nil
    obtain ⟨h1, h2⟩ := mem_splitAll hm hc
    exact ⟨hsub c h1, h2⟩
  · intro a ha c hc
    rw [← hag] at ha
    obtain ⟨h1, h2⟩ := mem_splitAll (getElem1_mem ha) hc
    exact ⟨hsub c h1, h2⟩

theorem parseLegacyTarget_sub {scheme t input : Str} {p : PKind} {rid : Str}
    {rag : Option Str} {b : Bool}
    (h : parseLegacyTarget scheme t input = .ok (p, rid, rag, b)) :
    (∀ c ∈ rid, c ∈ t ∧ ¬c = '/') ∧
      ∀ a, rag = some a → ∀ c ∈ a, c ∈ t ∧ ¬c = '/' := by
  unfold parseLegacyTarget at h
  split at h
  · cases h
  · rename_i provider hprov
    dsimp only [] at h
    split at h
    · cases h
    · injection h with h
      rw [Prod.mk.injEq] at h
      obtain ⟨hp, h⟩ := h
      rw [Prod.mk.injEq] at h
      obtain ⟨hrid, h⟩ := h
      rw [Prod.mk.injEq] at h
      obtain ⟨hrag, _⟩ := h
      have hsub : ∀ c, c ∈ (match provider with
          | PKind.amp => t
          | PKind.codex => (stripPre (strOf ("threads/")) t).getD t
          | PKind.claude | PKind.gemini | PKind.pi | PKind.opencode => t) →
          c ∈ t := by
        intro c hc
        cases provider
        all_goals dsimp only [] at hc
        case codex =>
          unfold stripPre at hc
          split at hc
          · simp only [Option.getD_some] at hc
            exact List.drop_subset _ _ hc
          · simpa using hc
        all_goals exact hc
      exact partsExtract_sub hsub hrid hrag

theorem canonSid_ne_nil {p : PKind} {rid : Str} (h : rid ≠ []) :
    canonSid p rid ≠ [] := by
  cases p <;> simp [canonSid, lowerStr, h]

theorem buildAgentsUri_shape {p : PKind} {rid t : Str} {rag : Option Str}
    {allows : Bool} {q : List (Str × Option Str)} {input : Str} {u : AgentsUri}
    (hqt : '?' ∉ t)
    (hrids : ∀ c ∈ rid, c ∈ t ∧ ¬c = '/')
    (hags : ∀ a, rag = some a → ∀ c ∈ a, c ∈ t ∧ ¬c = '/')
    (h : buildAgentsUri p rid rag allows q input = .ok u) :
    '?' ∉ u.session_id ∧ (∀ a, u.agent_id = some a → '?' ∉ a) ∧
      (u.session_id = [] → u.agent_id = none) := by
  obtain ⟨hprov, hquery, hdisj⟩ := buildAgentsUri_ok_inv h
  rcases hdisj with ⟨h1, h2⟩ | ⟨hne, h1, h2⟩
  · rw [h1, h2]
    exact ⟨by simp, by simp, fun _ => rfl⟩
  · refine ⟨?_, ?_, ?_⟩
    · rw [h1]
      refine canonSid_no_qmark ?_
      intro hm
      exact hqt (hrids '?' hm).1
    · intro a ha
      rw [h2] at ha
      obtain ⟨a0, ha0, haeq⟩ := Option.map_eq_some'.mp ha
      subst haeq
      refine canonAgent_no_qmark ?_
      intro hm
      exact hqt (hags a0 ha0 '?' hm).1
    · intro hnil
      rw [h1] at hnil
      exact absurd hnil (canonSid_ne_nil hne)

theorem parseAgentsUri_ok_shape {input : Str} {u : AgentsUri}
    (h : parseAgentsUri input = .ok u) :
    '?' ∉ u.session_id ∧ (∀ a, u.agent_id = some a → '?' ∉ a) ∧
      (u.session_id = [] → u.agent_id = none) := by
  unfold parseAgentsUri at h
  dsimp only [] at h
  rcases hss : splitScheme input with _ | ⟨s, t0⟩ <;> rw [hss] at h <;>
    dsimp only [] at h
  case none =>
    rcases hsq : splitOnce '?' input with _ | ⟨t, rq⟩ <;> rw [hsq] at h <;>
      dsimp only [] at h
    case none =>
      have hqt : '?' ∉ input := splitOnce_none_not_mem hsq
      split at h
      · cases h
      · split at h
        · cases h
        · rename_i heq
          obtain ⟨hs1, hs2⟩ := parseAgentsTarget_sub heq
          exact buildAgentsUri_shape hqt hs1 hs2 h
    case some =>
      have hqt : '?' ∉ t := splitOnce_fst_not_mem hsq
      split at h
      · cases h
      · split at h
        · cases h
        · rename_i heq
          obtain ⟨hs1, hs2⟩ := parseAgentsTarget_sub heq
          exact buildAgentsUri_shape hqt hs1 hs2 h
  case some =>
    rcases hsq : splitOnce '?' t0 with _ | ⟨t, rq⟩ <;> rw [hsq] at h <;>
      dsimp only [] at h
    case none =>
      have hqt : '?' ∉ t0 := splitOnce_none_not_mem hsq
      by_cases hs : s = strOf ("agents")
      · rw [if_pos hs] at h
        split at h
        · cases h
        · split at h
          · cases h
          · rename_i heq
            obtain ⟨hs1, hs2⟩ := parseAgentsTarget_sub heq
            exact buildAgentsUri_shape hqt hs1 hs2 h
      · rw [if_neg hs] at h
        split at h
        · cases h
        · split at h
          · cases h
          · rename_i heq
            obtain ⟨hs1, hs2⟩ := parseLegacyTarget_sub heq
            exact buildAgentsUri_shape hqt hs1 hs2 h
    case some =>
      have hqt : '?' ∉ t := splitOnce_fst_not_mem hsq
      by_cases hs : s = strOf ("agents")
      · rw [if_pos hs] at h
        split at h
        · cases h
        · split at h
          · cases h
          · rename_i heq
            obtain ⟨hs1, hs2⟩ := parseAgentsTarget_sub heq
            exact buildAgentsUri_shape hqt hs1 hs2 h
      · rw [if_neg hs] at h
        split at h
        · cases h
        · split at h
          · cases h
          · rename_i heq
            obtain ⟨hs1, hs2⟩ := parseLegacyTarget_sub heq
            exact buildAgentsUri_shape hqt hs1 hs2 h

theorem parse_noQmark_query_nil {s : Str} {u : AgentsUri} (hq : '?' ∉ s)
    (h : parseAgentsUri s = .ok u) : u.query = [] := by
  unfold parseAgentsUri at h
  dsimp only [] at h
  rcases hss : splitScheme s with _ | ⟨sc, t0⟩ <;> rw [hss] at h <;>
    dsimp only [] at h
  case none =>
    rw [splitOnce_eq_none hq] at h
    dsimp only [parseQuery] at h
    split at h
    · cases h
    · exact ((buildAgentsUri_ok_inv h).2).1
  case some =>
    have hq0 : '?' ∉ t0 := fun hm =>
      hq ((splitScheme_parts_subset hss).2 '?' hm)
    rw [splitOnce_eq_none hq0] at h
    dsimp only [parseQuery] at h
    by_cases hs : sc = strOf ("agents")
    · rw [if_pos hs] at h
      split at h
      · cases h
      · exact ((buildAgentsUri_ok_inv h).2).1
    · rw [if_neg hs] at h
      split at h
      · cases h
      · exact ((buildAgentsUri_ok_inv h).2).1

theorem asStringU_no_qmark {u : AgentsUri} (h1 : '?' ∉ u.session_id)
    (h2 : ∀ a, u.agent_id = some a → '?' ∉ a) :
    '?' ∉ asStringU u ∧ '?' ∉ asAgentsStringU u := by
  obtain ⟨p, sid, ag, q⟩ := u
  simp only [] at h1 h2
  have hagents : '?' ∉ strOf ("agents://") := by decide
  have hscheme : '?' ∉ strOf ("://") := by decide
  have hslash : ¬('?' = '/') := by decide
  have hpn : '?' ∉ provName p := provName_no_qmark _
  by_cases hc : isCollectionU ⟨p, sid, ag, q⟩ = true
  · simp only [asStringU, asAgentsStringU, if_pos hc]
    have hcoll : '?' ∉ strOf ("agents://") ++ provName p := by
      intro hm
      rcases List.mem_append.mp hm with hm | hm
      · exact hagents hm
      · exact hpn hm
    exact ⟨hcoll, hcoll⟩
  · rcases ag with _ | a
    · simp only [asStringU, asAgentsStringU, if_neg hc]
      constructor
      · intro hm
        simp only [List.mem_append, List.mem_cons] at hm
        have hflat : '?' ∈ provName p ∨ '?' ∈ strOf ("://") ∨
            '?' ∈ sid := by tauto
        rcases hflat with hf | hf | hf
        · exact hpn hf
        · exact hscheme hf
        · exact h1 hf
      · intro hm
        simp only [List.mem_append, List.mem_cons] at hm
        have hflat : '?' ∈ strOf ("agents://") ∨ '?' ∈ provName p ∨
            '?' = '/' ∨ '?' ∈ sid := by tauto
        rcases hflat with hf | hf | hf | hf
        · exact hagents hf
        · exact hpn hf
        · exact hslash hf
        · exact h1 hf
    · have ha := h2 a rfl
      simp only [asStringU, asAgentsStringU, if_neg hc]
      constructor
      · intro hm
        simp only [List.mem_append, List.mem_cons] at hm
        have hflat : '?' ∈ provName p ∨ '?' ∈ strOf ("://") ∨
            '?' ∈ sid ∨ '?' = '/' ∨ '?' ∈ a := by tauto
        rcases hflat with hf | hf | hf | hf | hf
        · exact hpn hf
        · exact hscheme hf
        · exact h1 hf
        · exact hslash hf
        · exact ha hf
      · intro hm
        simp only [List.mem_append, List.mem_cons] at hm
        have hflat : '?' ∈ strOf ("agents://") ∨ '?' ∈ provName p ∨
            '?' = '/' ∨ '?' ∈ sid ∨ '?' ∈ a := by tauto
        rcases hflat with hf | hf | hf | hf | hf
        · exact hagents hf
        · exact hpn hf
        · exact hslash hf
        · exact h1 hf
        · exact ha hf

/-- Claim C2 (amended): for every address whose session id is in canonical
form for its provider's grammar, whose agent id (if any) survives
canonicalization and the parser's child grammars, and whose query is empty,
parsing the string produced by either serialization family yields the
original address. The original claim fails for grammar-valid but
non-canonical ids (see the counterexample): parsing lower-cases them. -/
theorem c2_roundtrip (u : AgentsUri) (hq : u.query = [])
    (hsid : canonicalSid u.provider u.session_id)
    (hag : ∀ a, u.agent_id = some a → agentRoundTrips u.provider a) :
    parseAgentsUri (asStringU u) = .ok u ∧
      parseAgentsUri (asAgentsStringU u) = .ok u := by
  obtain ⟨p, sid, ag, q⟩ := u
  simp only [] at hq hsid hag
  subst hq
  obtain ⟨hg, hcanon⟩ := hsid
  have hcoll : isCollectionU ⟨p, sid, ag, []⟩ = false := by
    simp [isCollectionU, ne_nil_isEmpty_false (sidGrammar_ne_nil hg)]
  rcases ag with _ | a
  · simp only [asStringU, asAgentsStringU, hcoll, Bool.false_eq_true,
      if_false]
    constructor
    · have h := parseAgentsUri_legacy_single hg
      rwa [hcanon] at h
    · have h := parseAgentsUri_agents_single hg
      rwa [hcanon] at h
  · obtain ⟨hne, hslash, hqk, hfix, hampv, hopv⟩ := hag a rfl
    have hopa : p = PKind.opencode → opShape (canonAgent p a) = true := by
      intro hp
      rw [hfix]
      exact hopv hp
    simp only [asStringU, asAgentsStringU, hcoll, Bool.false_eq_true,
      if_false]
    constructor
    · have h := parseAgentsUri_legacy_pair hg hne hslash hqk hampv hopa
      rwa [hcanon, hfix] at h
    · have h := parseAgentsUri_agents_pair hg hne hslash hqk hampv hopa
      rwa [hcanon, hfix] at h

/-- Claim C8: id canonicalization on accepted addresses lower-cases
UUID-shaped session ids for codex, claude, gemini and pi, rewrites amp ids
to the fixed-case prefix followed by the lowercase UUID, and leaves
opencode ids exactly as written. -/
theorem c8_canonicalization :
    (∀ sid : Str, uuidShape sid = true →
      parseAgentsUri (provName PKind.codex ++ strOf ("://") ++ sid) =
          .ok ⟨PKind.codex, lowerStr sid, none, []⟩ ∧
        parseAgentsUri (provName PKind.claude ++ strOf ("://") ++ sid) =
          .ok ⟨PKind.claude, lowerStr sid, none, []⟩ ∧
        parseAgentsUri (provName PKind.gemini ++ strOf ("://") ++ sid) =
          .ok ⟨PKind.gemini, lowerStr sid, none, []⟩ ∧
        parseAgentsUri (provName PKind.pi ++ strOf ("://") ++ sid) =
          .ok ⟨PKind.pi, lowerStr sid, none, []⟩) ∧
    (∀ sid : Str, ampShape sid = true →
      parseAgentsUri (provName PKind.amp ++ strOf ("://") ++ sid) =
        .ok ⟨PKind.amp, 'T' :: '-' :: lowerStr (sid.drop 2), none, []⟩) ∧
    (∀ sid : Str, opShape sid = true →
      parseAgentsUri (provName PKind.opencode ++ strOf ("://") ++ sid) =
        .ok ⟨PKind.opencode, sid, none, []⟩) := by
  refine ⟨fun sid h => ⟨?_, ?_, ?_, ?_⟩, fun sid h => ?_, fun sid h => ?_⟩ <;>
    exact parseAgentsUri_legacy_single (by simpa [sidGrammar] using h)

/-- Claim C10: serializing an address never emits its query pairs: for every
parsed address, neither serialization family contains a question mark, and
any successful reparse of either serialization has an empty query. -/
theorem c10_query_dropped (input : Str) (u : AgentsUri)
    (h : parseAgentsUri input = .ok u) (_hq : u.query ≠ []) :
    '?' ∉ asStringU u ∧ '?' ∉ asAgentsStringU u ∧
      (∀ v, parseAgentsUri (asStringU u) = .ok v → v.query = []) ∧
      ∀ v, parseAgentsUri (asAgentsStringU u) = .ok v → v.query = [] := by
  obtain ⟨h1, h2, _⟩ := parseAgentsUri_ok_shape h
  obtain ⟨hA, hB⟩ := asStringU_no_qmark h1 h2
  exact ⟨hA, hB, fun v hv => parse_noQmark_query_nil hA hv,
    fun v hv => parse_noQmark_query_nil hB hv⟩

/-- Counterexample to claim C2 as stated: an uppercase UUID is valid for the
codex id grammar, yet parsing its own serialization yields the lowercased
address, not the original. -/
theorem c2_counterexample :
    sidGrammar PKind.codex
        (strOf ("019C871C-B1F9-7F60-9C4F-87ED09F13592")) = true ∧
      parseAgentsUri (asStringU ⟨PKind.codex,
          strOf ("019C871C-B1F9-7F60-9C4F-87ED09F13592"), none, []⟩) =
        .ok ⟨PKind.codex, strOf ("019c871c-b1f9-7f60-9c4f-87ed09f13592"),
          none, []⟩ ∧
      parseAgentsUri (asStringU ⟨PKind.codex,
          strOf ("019C871C-B1F9-7F60-9C4F-87ED09F13592"), none, []⟩) ≠
        .ok ⟨PKind.codex, strOf ("019C871C-B1F9-7F60-9C4F-87ED09F13592"),
          none, []⟩ := by
  refine ⟨by decide, by decide, ?_⟩
  decide

/-- Witness for the amended C2 theorem at a concrete amp address with an
agent id. -/
theorem c2_witness :
    canonicalSid PKind.amp
        (strOf ("T-019c0797-c402-7389-bd80-d785c98df295")) ∧
      agentRoundTrips PKind.amp
        (strOf ("T-1abc0797-c402-7389-bd80-d785c98df295")) ∧
      parseAgentsUri (asStringU ⟨PKind.amp,
          strOf ("T-019c0797-c402-7389-bd80-d785c98df295"),
          some (strOf ("T-1abc0797-c402-7389-bd80-d785c98df295")), []⟩) =
        .ok ⟨PKind.amp, strOf ("T-019c0797-c402-7389-bd80-d785c98df295"),
          some (strOf ("T-1abc0797-c402-7389-bd80-d785c98df295")), []⟩ :=
  ⟨by decide, by decide,
    (c2_roundtrip _ rfl (by decide) (fun a h => by cases h; decide)).1⟩

/-- Witness for C8 at a concrete uppercase gemini UUID. -/
theorem c8_witness :
    uuidShape (strOf ("29D207DB-CA7E-40BA-87F7-E14C9DE60613")) = true ∧
      parseAgentsUri (provName PKind.gemini ++ strOf ("://") ++
          strOf ("29D207DB-CA7E-40BA-87F7-E14C9DE60613")) =
        .ok ⟨PKind.gemini,
          lowerStr (strOf ("29D207DB-CA7E-40BA-87F7-E14C9DE60613")), none,
          []⟩ :=
  ⟨by decide, ((c8_canonicalization.1 _ (by decide)).2).2.1⟩

/-- Witness for C10 at a concrete codex address carrying a query pair. -/
theorem c10_witness :
    parseAgentsUri (strOf ("codex://019c871c-b1f9-7f60-9c4f-87ed09f13592?add_dir=%2Fa")) =
        .ok ⟨PKind.codex, strOf ("019c871c-b1f9-7f60-9c4f-87ed09f13592"),
          none, [(strOf ("add_dir"), some (strOf ("/a")))]⟩ ∧
      '?' ∉ asStringU ⟨PKind.codex,
        strOf ("019c871c-b1f9-7f60-9c4f-87ed09f13592"), none,
        [(strOf ("add_dir"), some (strOf ("/a")))]⟩ :=
  ⟨by decide,
    (c10_query_dropped
      (strOf ("codex://019c871c-b1f9-7f60-9c4f-87ed09f13592?add_dir=%2Fa"))
      ⟨PKind.codex, strOf ("019c871c-b1f9-7f60-9c4f-87ed09f13592"), none,
        [(strOf ("add_dir"), some (strOf ("/a")))]⟩
      (by decide) (by decide)).1⟩

theorem claudeScanLines_any (fromStr : JParse) (sid : Str) (ls : List Str) :
    claudeScanLines fromStr sid ls =
      ls.any (fun l => !(trimStr l).isEmpty && lineIdMatches fromStr sid l) := by
  induction ls with
  | nil => rfl
  | cons line rest ih =>
    by_cases hb : (trimStr line).isEmpty
    · simp [claudeScanLines, hb, ih]
    · cases hp : fromStr line with
      | ok v =>
        by_cases hs : getStr v (strOf ("sessionId")) = some sid
        · simp [claudeScanLines, hb, hp, hs, lineIdMatches]
        · simp [claudeScanLines, hb, hp, hs, lineIdMatches, ih]
      | error e => simp [claudeScanLines, hb, hp, lineIdMatches, ih]

/-- Claim C9 (amended): the content-scan tier takes the first 30 lines of a
file counting blanks, skips blank-after-trimming lines inside that window,
and matches when a remaining line parses to a JSON value whose sessionId
equals the searched id; the files scanned are exactly the walked files with
a jsonl extension whose window matches. The claim as stated (30 non-blank
lines) fails when blanks push the header past line 30. -/
theorem c9_scan_window (fromStr : JParse) (sid : Str) :
    (∀ lines, claudeFileContains fromStr lines sid =
      (lines.take 30).any
        (fun l => !(trimStr l).isEmpty && lineIdMatches fromStr sid l)) ∧
    (∀ (env : ClaudeEnv) (p : PathT), p ∈ claudeFindByHeaderScan fromStr env sid ↔
      p ∈ env.files ∧
        (match p.getLast? with
          | some name => extOf name = some (strOf ("jsonl"))
          | none => false) = true ∧
        claudeFileContains fromStr (env.readLines p) sid = true) := by
  constructor
  · intro lines
    exact claudeScanLines_any fromStr sid (lines.take 30)
  · intro env p
    unfold claudeFindByHeaderScan
    rw [List.mem_filter, List.mem_filter]
    tauto

/-- Counterexample to claim C9 as stated: a file whose session header sits
behind thirty blank lines is missed by the code, while the spec wording
(30 non-blank lines) would match it. -/
theorem c9_counterexample :
    claudeFileContains c9Parse c9Lines c9Sid = false ∧
      claudeFileContainsSpec c9Parse c9Lines c9Sid = true := by
  constructor <;> decide

/-- Claim C4 (amended): the amp write adapter fails with WriteProtocol
carrying the stream error message whenever the consumed stream left an error
signal, even when the process exit status is success; the claude adapter has
no such check (see the counterexample), so the property does not hold for
every write adapter. -/
theorem c4_amp_stream_error {σ : Type} (fromStr : JParse) (ops : SinkOps σ)
    (sink0 : σ) (reqSession : Option Str) (lines : List Str)
    (exitCode : Option Int) (stderr : Str) (args warnings : List Str)
    (st : AmpSt σ) (msg : Str)
    (hfold : parseJsonlReader fromStr (strOf ("<amp:stdout>"))
        (fun st _ v => ampStep ops st v) ⟨sink0, reqSession, none, none⟩
        lines = .ok st)
    (herr : st.streamError = some msg) :
    ampRunWrite fromStr ops sink0 reqSession lines true exitCode stderr args
        warnings =
      .error (.writeProtocol
        (strOf ("amp stream returned an error: ") ++ msg)) := by
  unfold ampRunWrite
  rw [hfold]
  simp [herr]

/-- Witness for the amended C4 theorem: the scenario stream, folded through
the amp closure, records the boom error, and the zero-exit run fails with
WriteProtocol mentioning boom. -/
theorem c4_witness :
    parseJsonlReader c4Parse (strOf ("<amp:stdout>"))
        (fun st _ v => ampStep sinkUnit st v) ⟨(), none, none, none⟩
        [c4Line] =
      .ok (⟨(), none, some (strOf ("boom")), some (strOf ("boom"))⟩ :
        AmpSt Unit) ∧
    ampRunWrite c4Parse sinkUnit () none [c4Line] true (some 0) [] [] [] =
      .error (.writeProtocol
        (strOf ("amp stream returned an error: ") ++ strOf ("boom"))) :=
  ⟨by decide,
    c4_amp_stream_error c4Parse sinkUnit () none [c4Line] (some 0) [] [] []
      ⟨(), none, some (strOf ("boom")), some (strOf ("boom"))⟩
      (strOf ("boom")) (by decide) rfl⟩

/-- Counterexample to claim C4 as stated: the claude adapter, fed the very
scenario line with a zero exit status, returns ok instead of WriteProtocol —
its run_write never consults an is_error field. -/
theorem c4_counterexample :
    claudeRunWrite c4Parse sinkUnit () (some (strOf ("s"))) [c4Line] true
        (some 0) [] [] [] =
      .ok ⟨.claude, strOf ("s"), some (strOf ("boom")), []⟩ := by
  decide

theorem parseJsonlFold_append {σ : Type} (fromStr : JParse) (path : Str)
    (step : σ → Nat → Json → Except XErr σ) (pre : List Str) :
    ∀ (n : Nat) (st : σ) (post : List Str),
      parseJsonlFold fromStr path step n st (pre ++ post) =
        (parseJsonlFold fromStr path step n st pre).bind
          (fun st1 => parseJsonlFold fromStr path step (n + pre.length) st1
            post) := by
  induction pre with
  | nil => intro n st post; simp [parseJsonlFold, Except.bind]
  | cons line rest ih =>
    intro n st post
    rw [List.cons_append, parseJsonlFold, parseJsonlFold]
    cases parseJsonLine fromStr path (n + 1) line with
    | error e => rfl
    | ok o =>
      cases o with
      | none =>
        rw [ih]
        simp [Nat.add_comm, Nat.add_assoc, Nat.add_left_comm]
      | some v =>
        cases hst : step st (n + 1) v with
        | error e => simp [hst, Except.bind]
        | ok st2 =>
          simp only [hst]
          rw [ih]
          simp [Except.bind, Nat.add_comm, Nat.add_assoc, Nat.add_left_comm]

/-- Claim C7: the jsonl reader skips lines blank after trimming while still
counting them, parses every remaining line and hands the callback the
1-based line number (the append law shows numbering counts all lines
globally), turns a non-blank undecodable line into a terminal
invalidJsonLine error carrying the path, the line number and the decode
error, and stops iteration when the callback errors (the bind law). -/
theorem c7_jsonl_reader {σ : Type} (fromStr : JParse) (path : Str)
    (step : σ → Nat → Json → Except XErr σ) :
    (∀ (st : σ) (pre post : List Str),
      parseJsonlReader fromStr path step st (pre ++ post) =
        (parseJsonlFold fromStr path step 0 st pre).bind
          (fun st1 => parseJsonlFold fromStr path step pre.length st1
            post)) ∧
    (∀ (n : Nat) (st : σ) (line : Str) (rest : List Str),
      (trimStr line).isEmpty = true →
        parseJsonlFold fromStr path step n st (line :: rest) =
          parseJsonlFold fromStr path step (n + 1) st rest) ∧
    (∀ (n : Nat) (st : σ) (line : Str) (rest : List Str) (e : Str),
      (trimStr line).isEmpty = false →
        fromStr (trimStr line) = .error e →
          parseJsonlFold fromStr path step n st (line :: rest) =
            .error (.invalidJsonLine path (n + 1) e)) ∧
    (∀ (n : Nat) (st : σ) (line : Str) (rest : List Str) (v : Json),
      (trimStr line).isEmpty = false →
        fromStr (trimStr line) = .ok v →
          parseJsonlFold fromStr path step n st (line :: rest) =
            (step st (n + 1) v).bind
              (fun st2 => parseJsonlFold fromStr path step (n + 1) st2
                rest)) := by
  refine ⟨?_, ?_, ?_, ?_⟩
  · intro st pre post
    rw [parseJsonlReader, parseJsonlFold_append]
    simp
  · intro n st line rest hb
    rw [parseJsonlFold, parseJsonLine]
    simp [hb]
  · intro n st line rest e hb he
    rw [parseJsonlFold, parseJsonLine]
    simp [hb, he]
  · intro n st line rest v hb hv
    rw [parseJsonlFold, parseJsonLine]
    simp only [hb, hv]
    cases hst : step st (n + 1) v <;> simp [hst, Except.bind]

/-- Witness for C7 at concrete lines: a blank line is skipped but counted, a
malformed line at offset 4 errors at line 5, and a parsed line reaches the
callback as line 1. -/
theorem c7_witness :
    parseJsonlFold c9Parse [] (fun (st : List (Nat × Json)) n v =>
        .ok ((n, v) :: st)) 0 [] ([] :: []) =
      parseJsonlFold c9Parse [] (fun (st : List (Nat × Json)) n v =>
        .ok ((n, v) :: st)) 1 [] [] ∧
    parseJsonlFold c9Parse [] (fun (st : List (Nat × Json)) n v =>
        .ok ((n, v) :: st)) 4 [] [c4Line] =
      .error (.invalidJsonLine [] 5 (strOf ("expected value"))) ∧
    parseJsonlFold c9Parse [] (fun (st : List (Nat × Json)) n v =>
        .ok ((n, v) :: st)) 0 [] [c9Line] =
      ((fun (st : List (Nat × Json)) n v => (.ok ((n, v) :: st) :
          Except XErr (List (Nat × Json)))) [] 1
        (.obj [(strOf ("sessionId"), .str c9Sid)])).bind
        (fun st2 => parseJsonlFold c9Parse [] (fun (st : List (Nat × Json))
          n v => .ok ((n, v) :: st)) 1 st2 []) :=
  ⟨(c7_jsonl_reader c9Parse [] _).2.1 0 [] [] [] (by decide),
    (c7_jsonl_reader c9Parse [] _).2.2.1 4 [] c4Line []
      (strOf ("expected value")) (by decide) rfl,
    (c7_jsonl_reader c9Parse [] _).2.2.2 0 [] c9Line []
      (.obj [(strOf ("sessionId"), .str c9Sid)]) (by decide) rfl⟩

/-- Claim C1: with no database match, a filesystem rollout under the active
sessions tree resolves with source codex:sessions; a non-archived database
row whose rollout path exists wins with source codex:sqlite:sessions no
matter what the filesystem scan would find; a non-archived row whose path
is gone appends the stale-pointer warning and falls through to the
filesystem tier. -/
theorem c1_codex_tiers :
    (∀ (env : CodexEnv) (sid : Str) (ws0 : List Str) (selected : PathT)
      (count : Nat),
      codexDbLookup env.dbs [] = (none, ws0) →
        chooseLatestP env.mtime (codexFindCandidates env.activeFiles sid) =
            some (selected, count) →
          codexResolve env sid =
            .ok ⟨.codex, sid, selected, ⟨strOf ("codex:sessions"), count,
              if count > 1 then ws0 ++ [multiMsg count sid selected]
              else ws0⟩⟩) ∧
    (∀ (env : CodexEnv) (sid : Str) (ws0 : List Str) (r : CodexRecord),
      codexDbLookup env.dbs [] = (some r, ws0) →
        r.archived = false →
          env.pexists r.rollout = true →
            codexResolve env sid =
              .ok ⟨.codex, sid, r.rollout,
                ⟨strOf ("codex:sqlite:sessions"), 1, ws0⟩⟩) ∧
    (∀ (env : CodexEnv) (sid : Str) (ws0 : List Str) (r : CodexRecord)
      (selected : PathT) (count : Nat),
      codexDbLookup env.dbs [] = (some r, ws0) →
        r.archived = false →
          env.pexists r.rollout = false →
            chooseLatestP env.mtime
                (codexFindCandidates env.activeFiles sid) =
              some (selected, count) →
              codexResolve env sid =
                .ok ⟨.codex, sid, selected, ⟨strOf ("codex:sessions"),
                  count,
                  if count > 1 then
                    (ws0 ++ [staleActiveMsg sid r.rollout]) ++
                      [multiMsg count sid selected]
                  else ws0 ++ [staleActiveMsg sid r.rollout]⟩⟩) := by
  refine ⟨?_, ?_, ?_⟩
  · intro env sid ws0 selected count hdb hch
    simp only [codexResolve, hdb]
    rw [hch]
  · intro env sid ws0 r hdb harch hex
    simp only [codexResolve, hdb, harch, hex]
    simp
  · intro env sid ws0 r selected count hdb harch hex hch
    simp only [codexResolve, hdb, harch, hex]
    simp only [Bool.not_false, if_true, Bool.false_eq_true, if_false]
    rw [hch]

/-- Witness for C1 on the three concrete codex environments (filesystem
only, live database row, stale database row). -/
theorem c1_witness :
    codexResolve codexEnvFs codexSidW =
      .ok ⟨.codex, codexSidW, [strOf ("sessions"),
        strOf ("rollout-2026-02-23T04-48-50-019c871c-b1f9-7f60-9c4f-87ed09f13592.jsonl")],
        ⟨strOf ("codex:sessions"), 1, []⟩⟩ ∧
    codexResolve codexEnvDb codexSidW =
      .ok ⟨.codex, codexSidW, [strOf ("sessions"), strOf ("custom"),
        strOf ("thread.jsonl")],
        ⟨strOf ("codex:sqlite:sessions"), 1, []⟩⟩ ∧
    codexResolve codexEnvStale codexSidW =
      .ok ⟨.codex, codexSidW, [strOf ("sessions"),
        strOf ("rollout-2026-02-23T04-48-50-019c871c-b1f9-7f60-9c4f-87ed09f13592.jsonl")],
        ⟨strOf ("codex:sessions"), 1,
          [staleActiveMsg codexSidW [strOf ("sessions"), strOf ("stale"),
            strOf ("thread.jsonl")]]⟩⟩ :=
  ⟨c1_codex_tiers.1 codexEnvFs codexSidW [] _ 1 (by decide) (by decide),
    c1_codex_tiers.2.1 codexEnvDb codexSidW []
      ⟨[strOf ("sessions"), strOf ("custom"), strOf ("thread.jsonl")], false⟩
      (by decide) rfl (by decide),
    c1_codex_tiers.2.2 codexEnvStale codexSidW []
      ⟨[strOf ("sessions"), strOf ("stale"), strOf ("thread.jsonl")], false⟩
      _ 1 (by decide) rfl (by decide) (by decide)⟩

theorem insertDesc_mem (x y : PathT × Nat) (l : List (PathT × Nat)) :
    y ∈ insertDesc x l ↔ y = x ∨ y ∈ l := by
  induction l with
  | nil => simp [insertDesc]
  | cons a t ih =>
    rw [insertDesc]
    by_cases hc : x.2 ≤ a.2
    · rw [if_pos hc]
      simp only [List.mem_cons, ih]
      tauto
    · rw [if_neg hc]
      simp only [List.mem_cons]

theorem insertDesc_head (x : PathT × Nat) (l : List (PathT × Nat))
    (hl : ∀ h, l.head? = some h → ∀ y ∈ l, y.2 ≤ h.2) :
    ∀ h, (insertDesc x l).head? = some h →
      ∀ y ∈ insertDesc x l, y.2 ≤ h.2 := by
  cases l with
  | nil =>
    intro h hh y hy
    simp [insertDesc] at hh hy
    subst hh; subst hy
    exact le_refl _
  | cons a t =>
    intro h hh y hy
    rw [insertDesc] at hh hy
    by_cases hc : x.2 ≤ a.2
    · rw [if_pos hc] at hh hy
      simp at hh
      subst hh
      rcases List.mem_cons.mp hy with hy | hy
      · subst hy; exact le_refl _
      · rcases (insertDesc_mem x y t).mp hy with hy | hy
        · subst hy; exact hc
        · exact hl a rfl y (List.mem_cons_self a t |> fun _ =>
            List.mem_cons_of_mem a hy)
    · rw [if_neg hc] at hh hy
      simp at hh
      subst hh
      rcases List.mem_cons.mp hy with hy | hy
      · subst hy; exact le_refl _
      · rcases List.mem_cons.mp hy with hy | hy
        · subst hy; exact le_of_lt (Nat.lt_of_not_le hc)
        · exact le_trans (hl a rfl y (List.mem_cons_of_mem a hy))
            (le_of_lt (Nat.lt_of_not_le hc))

theorem sortDesc_go_mem (l : List (PathT × Nat)) :
    ∀ (acc : List (PathT × Nat)) (y : PathT × Nat),
      y ∈ l.foldl (fun acc x => insertDesc x acc) acc ↔ y ∈ l ∨ y ∈ acc := by
  induction l with
  | nil => intro acc y; simp
  | cons a t ih =>
    intro acc y
    rw [List.foldl_cons, ih, insertDesc_mem]
    simp
    tauto

theorem sortDesc_go_head (l : List (PathT × Nat)) :
    ∀ (acc : List (PathT × Nat)),
      (∀ h, acc.head? = some h → ∀ y ∈ acc, y.2 ≤ h.2) →
      ∀ h, (l.foldl (fun acc x => insertDesc x acc) acc).head? = some h →
        ∀ y ∈ l.foldl (fun acc x => insertDesc x acc) acc, y.2 ≤ h.2 := by
  induction l with
  | nil => intro acc hacc; exact hacc
  | cons a t ih =>
    intro acc hacc
    rw [List.foldl_cons]
    exact ih (insertDesc a acc) (insertDesc_head a acc hacc)

theorem sortDesc_mem (l : List (PathT × Nat)) (y : PathT × Nat) :
    y ∈ sortDesc l ↔ y ∈ l := by
  rw [sortDesc, sortDesc_go_mem]
  simp

theorem sortDesc_head (l : List (PathT × Nat)) :
    ∀ h, (sortDesc l).head? = some h → ∀ y ∈ sortDesc l, y.2 ≤ h.2 := by
  rw [sortDesc]
  exact sortDesc_go_head l [] (by intro h hh; simp at hh)

theorem chooseLatestP_single (mtime : PathT → Nat) (p : PathT) :
    chooseLatestP mtime [p] = some (p, 1) := rfl

theorem chooseLatestP_spec (mtime : PathT → Nat) (paths : List PathT)
    (hne : paths ≠ []) :
    ∃ sel, chooseLatestP mtime paths = some (sel, paths.length) ∧
      sel ∈ paths ∧ ∀ q ∈ paths, mtime q ≤ mtime sel := by
  cases hs : sortDesc (paths.map (fun p => (p, mtime p))) with
  | nil =>
    exfalso
    cases paths with
    | nil => exact hne rfl
    | cons p t =>
      have hm : (p, mtime p) ∈
          sortDesc ((p :: t).map (fun p => (p, mtime p))) := by
        rw [sortDesc_mem]
        simp
      rw [hs] at hm
      simp at hm
  | cons top rest =>
    have htop : top ∈ sortDesc (paths.map (fun p => (p, mtime p))) := by
      rw [hs]; exact List.mem_cons_self _ _
    have htopm := htop
    rw [sortDesc_mem, List.mem_map] at htopm
    obtain ⟨p, hp, he⟩ := htopm
    have htop2 : top.2 = mtime top.1 := by rw [← he]
    refine ⟨top.1, ?_, ?_, ?_⟩
    · rw [chooseLatestP, hs]
    · rw [← he]; exact hp
    · intro q hq
      have hqm : (q, mtime q) ∈ sortDesc (paths.map (fun p => (p, mtime p))) := by
        rw [sortDesc_mem, List.mem_map]
        exact ⟨q, hq, rfl⟩
      have := sortDesc_head (paths.map (fun p => (p, mtime p))) top
        (by rw [hs]; rfl) (q, mtime q) hqm
      rw [htop2] at this
      exact this

/-- Claim C6: a single surviving candidate resolves with candidate_count 1
and no warnings, and N greater-equal 2 candidates resolve to the candidate
with the greatest modification time with candidate_count N and the
multiple-matches warning naming the count and chosen path — shown for the
shared choose_latest selector, the gemini resolver, claude's make_resolved
and the codex filesystem tier. -/
theorem c6_candidates :
    (∀ (mtime : PathT → Nat) (p : PathT),
      chooseLatestP mtime [p] = some (p, 1)) ∧
    (∀ (mtime : PathT → Nat) (paths : List PathT), paths ≠ [] →
      ∃ sel, chooseLatestP mtime paths = some (sel, paths.length) ∧
        sel ∈ paths ∧ ∀ q ∈ paths, mtime q ≤ mtime sel) ∧
    (∀ (fromStr : JParse) (env : GeminiEnv) (sid : Str) (p : PathT),
      geminiFindCandidates fromStr env sid = [p] →
        geminiResolve fromStr env sid =
          .ok ⟨.gemini, sid, p, ⟨strOf ("gemini:chats"), 1, []⟩⟩) ∧
    (∀ (fromStr : JParse) (env : GeminiEnv) (sid : Str),
      2 ≤ (geminiFindCandidates fromStr env sid).length →
        ∃ sel, sel ∈ geminiFindCandidates fromStr env sid ∧
          (∀ q ∈ geminiFindCandidates fromStr env sid,
            env.mtime q ≤ env.mtime sel) ∧
          geminiResolve fromStr env sid =
            .ok ⟨.gemini, sid, sel, ⟨strOf ("gemini:chats"),
              (geminiFindCandidates fromStr env sid).length,
              [multiMsg (geminiFindCandidates fromStr env sid).length sid
                sel]⟩⟩) ∧
    (∀ (sid : Str) (sel : PathT) (src : Str),
      claudeMakeResolved sid sel 1 src = ⟨.claude, sid, sel, ⟨src, 1, []⟩⟩) ∧
    (∀ (sid : Str) (sel : PathT) (count : Nat) (src : Str), 2 ≤ count →
      claudeMakeResolved sid sel count src =
        ⟨.claude, sid, sel, ⟨src, count, [multiMsg count sid sel]⟩⟩) ∧
    (∀ (env : CodexEnv) (sid : Str) (p : PathT),
      codexDbLookup env.dbs [] = (none, []) →
        codexFindCandidates env.activeFiles sid = [p] →
          codexResolve env sid =
            .ok ⟨.codex, sid, p, ⟨strOf ("codex:sessions"), 1, []⟩⟩) ∧
    (∀ (env : CodexEnv) (sid : Str),
      codexDbLookup env.dbs [] = (none, []) →
        2 ≤ (codexFindCandidates env.activeFiles sid).length →
          ∃ sel, sel ∈ codexFindCandidates env.activeFiles sid ∧
            (∀ q ∈ codexFindCandidates env.activeFiles sid,
              env.mtime q ≤ env.mtime sel) ∧
            codexResolve env sid =
              .ok ⟨.codex, sid, sel, ⟨strOf ("codex:sessions"),
                (codexFindCandidates env.activeFiles sid).length,
                [multiMsg (codexFindCandidates env.activeFiles sid).length
                  sid sel]⟩⟩) := by
  refine ⟨chooseLatestP_single, chooseLatestP_spec, ?_, ?_, ?_, ?_, ?_, ?_⟩
  · intro fromStr env sid p hc
    rw [geminiResolve, hc, chooseLatestP_single]
    simp
  · intro fromStr env sid hlen
    obtain ⟨sel, heq, hmem, hmax⟩ := chooseLatestP_spec env.mtime
      (geminiFindCandidates fromStr env sid)
      (by intro h; rw [h] at hlen; simp at hlen)
    have h1 : 1 < (geminiFindCandidates fromStr env sid).length :=
      Nat.lt_of_lt_of_le Nat.one_lt_two hlen
    refine ⟨sel, hmem, hmax, ?_⟩
    rw [geminiResolve, heq]
    simp [h1]
  · intro sid sel src
    rw [claudeMakeResolved]
    simp
  · intro sid sel count src hc
    rw [claudeMakeResolved]
    have h1 : count > 1 := Nat.lt_of_lt_of_le Nat.one_lt_two hc
    simp [h1]
  · intro env sid p hdb hc
    simp only [codexResolve, hdb]
    rw [hc, chooseLatestP_single]
    simp
  · intro env sid hdb hlen
    obtain ⟨sel, heq, hmem, hmax⟩ := chooseLatestP_spec env.mtime
      (codexFindCandidates env.activeFiles sid)
      (by intro h; rw [h] at hlen; simp at hlen)
    have h1 : 1 < (codexFindCandidates env.activeFiles sid).length :=
      Nat.lt_of_lt_of_le Nat.one_lt_two hlen
    refine ⟨sel, hmem, hmax, ?_⟩
    simp only [codexResolve, hdb]
    rw [heq]
    simp [h1]

/-- Witness for C6: one-candidate and two-candidate gemini environments, a
two-candidate claude call and the one-candidate codex environment. -/
theorem c6_witness :
    geminiResolve geminiParseW geminiEnvW1 geminiSidW =
      .ok ⟨.gemini, geminiSidW, [strOf ("tmp"), strOf ("hash-a"),
        strOf ("chats"), strOf ("session-1.json")],
        ⟨strOf ("gemini:chats"), 1, []⟩⟩ ∧
    (∃ sel, sel ∈ geminiFindCandidates geminiParseW geminiEnvW geminiSidW ∧
      (∀ q ∈ geminiFindCandidates geminiParseW geminiEnvW geminiSidW,
        geminiEnvW.mtime q ≤ geminiEnvW.mtime sel) ∧
      geminiResolve geminiParseW geminiEnvW geminiSidW =
        .ok ⟨.gemini, geminiSidW, sel, ⟨strOf ("gemini:chats"),
          (geminiFindCandidates geminiParseW geminiEnvW geminiSidW).length,
          [multiMsg (geminiFindCandidates geminiParseW geminiEnvW
              geminiSidW).length geminiSidW sel]⟩⟩) ∧
    claudeMakeResolved c9Sid [strOf ("p")] 2 (strOf ("claude:index")) =
      ⟨.claude, c9Sid, [strOf ("p")], ⟨strOf ("claude:index"), 2,
        [multiMsg 2 c9Sid [strOf ("p")]]⟩⟩ ∧
    codexResolve codexEnvFs codexSidW =
      .ok ⟨.codex, codexSidW, [strOf ("sessions"),
        strOf ("rollout-2026-02-23T04-48-50-019c871c-b1f9-7f60-9c4f-87ed09f13592.jsonl")],
        ⟨strOf ("codex:sessions"), 1, []⟩⟩ :=
  ⟨c6_candidates.2.2.1 geminiParseW geminiEnvW1 geminiSidW _ (by decide),
    c6_candidates.2.2.2.1 geminiParseW geminiEnvW geminiSidW (by decide),
    c6_candidates.2.2.2.2.2.1 c9Sid [strOf ("p")] 2 (strOf ("claude:index"))
      (Nat.le_refl 2),
    c6_candidates.2.2.2.2.2.2.1 codexEnvFs codexSidW _ (by decide)
      (by decide)⟩

theorem dropWhile_head_false {p : Char → Bool} :
    ∀ (l : Str) {c : Char} {t : Str}, l.dropWhile p = c :: t → p c = false := by
  intro l
  induction l with
  | nil => intro c t h; simp at h
  | cons a rest ih =>
    intro c t h
    rw [List.dropWhile_cons] at h
    by_cases hp : p a
    · rw [if_pos hp] at h
      exact ih h
    · rw [if_neg hp] at h
      cases h
      exact Bool.of_not_eq_true hp

theorem trimStr_nil_all_ws {s : Str} (h : trimStr s = []) :
    ∀ c ∈ s, isRustWs c = true := by
  intro c hc
  rw [trimStr, trimLeftStr, List.dropWhile_eq_nil_iff] at h
  by_cases hws : isRustWs c
  · exact hws
  · exfalso
    have hsplit := List.takeWhile_append_dropWhile (p := isRustWs)
      (l := s.reverse)
    have hcrev : c ∈ s.reverse := List.mem_reverse.mpr hc
    rw [← hsplit, List.mem_append] at hcrev
    rcases hcrev with hck | hcd
    · exact hws (List.mem_takeWhile_imp hck)
    · have : c ∈ trimRightStr s := by
        rw [trimRightStr, List.mem_reverse]
        exact hcd
      exact hws (h c this)

theorem mem_nonws_trim {s : Str} {c : Char} (hc : c ∈ s)
    (hws : isRustWs c = false) : (trimStr s).isEmpty = false := by
  cases ht : trimStr s with
  | nil => rw [trimStr_nil_all_ws ht c hc] at hws; cases hws
  | cons a t => rfl

theorem trim_nonempty_head {s : Str} (h : (trimStr s).isEmpty = false) :
    ∃ c ∈ trimStr s, isRustWs c = false := by
  cases ht : trimStr s with
  | nil => rw [ht] at h; cases h
  | cons a t =>
    refine ⟨a, List.mem_cons_self _ _, ?_⟩
    rw [trimStr, trimLeftStr] at ht
    exact dropWhile_head_false (trimRightStr s) ht

theorem intercalate_cons_exists (sep t : Str) (rest : List Str) :
    ∃ x, List.intercalate sep (t :: rest) = t ++ x := by
  cases rest with
  | nil => exact ⟨[], by simp [List.intercalate]⟩
  | cons r rs =>
    exact ⟨sep ++ List.intercalate sep (r :: rs), by
      simp [List.intercalate, List.intersperse]⟩

theorem intercalate_trim_nonempty {t : Str} (rest : List Str)
    (hh : ∃ c ∈ t, isRustWs c = false) :
    (trimStr (List.intercalate (strOf ("\n\n")) (t :: rest))).isEmpty =
      false := by
  obtain ⟨x, hx⟩ := intercalate_cons_exists (strOf ("\n\n")) t rest
  obtain ⟨c, hcm, hws⟩ := hh
  rw [hx]
  exact mem_nonws_trim (List.mem_append_left x hcm) hws

theorem trimmedField_some {item : Json} {key t : Str}
    (h : trimmedField item key = some t) : ∃ c ∈ t, isRustWs c = false := by
  rw [trimmedField] at h
  split at h
  · rename_i t0 hget
    split at h
    · cases h
    · rename_i hne
      cases h
      exact trim_nonempty_head (Bool.eq_false_iff.mpr hne)
  · cases h

theorem opencodeChunks_mem (parts : List Json) :
    ∀ t ∈ opencodeChunks parts, ∃ c ∈ t, isRustWs c = false := by
  induction parts with
  | nil => intro t ht; simp [opencodeChunks] at ht
  | cons part rest ih =>
    intro t ht
    rw [opencodeChunks] at ht
    split at ht
    · exact ih t ht
    · split at ht
      · exact ih t ht
      · split at ht
        · split at ht
          · rename_i t0 hget hne
            rcases List.mem_cons.mp ht with h | h
            · subst h
              refine trim_nonempty_head ?_
              simpa using hne
            · exact ih t h
          · exact ih t ht
        · exact ih t ht

theorem textChunks_mem (items : List Json) :
    ∀ t ∈ textChunks items, ∃ c ∈ t, isRustWs c = false := by
  induction items with
  | nil => intro t ht; simp [textChunks] at ht
  | cons item rest ih =>
    intro t ht
    rw [textChunks] at ht
    split at ht
    · exact ih t ht
    · split at ht
      · rename_i t0 hget
        rcases List.mem_cons.mp ht with h | h
        · subst h; exact trimmedField_some hget
        · exact ih t h
      · split at ht
        · rename_i t0 hget
          rcases List.mem_cons.mp ht with h | h
          · subst h; exact trimmedField_some hget
          · exact ih t h
        · split at ht
          · rename_i t0 hget
            rcases List.mem_cons.mp ht with h | h
            · subst h; exact trimmedField_some hget
            · exact ih t h
          · exact ih t ht

theorem ampChunks_mem (items : List Json) :
    ∀ t ∈ ampChunks items, ∃ c ∈ t, isRustWs c = false := by
  induction items with
  | nil => intro t ht; simp [ampChunks] at ht
  | cons item rest ih =>
    intro t ht
    rw [ampChunks] at ht
    split at ht
    · exact ih t ht
    · split at ht
      · split at ht
        · rename_i t0 hget
          rcases List.mem_cons.mp ht with h | h
          · subst h; exact trimmedField_some hget
          · exact ih t h
        · exact ih t ht
      · split at ht
        · split at ht
          · rename_i t0 hget
            rcases List.mem_cons.mp ht with h | h
            · subst h; exact trimmedField_some hget
            · exact ih t h
          · exact ih t ht
        · exact ih t ht

theorem extractCodexMsg_some {v : Json} {m : TMsg}
    (h : extractCodexMsg v = some m) : (trimStr m.text).isEmpty = false := by
  rw [extractCodexMsg] at h
  split at h
  · cases h
  · split at h
    · split at h
      · cases h
      · split at h
        · cases h
        · split at h
          · cases h
          · split at h
            · cases h
            · split at h
              · cases h
              · dsimp only [] at h
                split at h
                · cases h
                · rename_i hne
                  cases h
                  exact Bool.eq_false_iff.mpr hne
    · split at h
      · dsimp only [] at h
        split at h
        · cases h
        · rename_i hne
          cases h
          exact Bool.eq_false_iff.mpr hne
      · cases h

theorem extractClaudeMsg_some {v : Json} {m : TMsg}
    (h : extractClaudeMsg v = some m) : (trimStr m.text).isEmpty = false := by
  rw [extractClaudeMsg] at h
  split at h
  · cases h
  · split at h
    · cases h
    · split at h
      · cases h
      · dsimp only [] at h
        split at h
        · cases h
        · split at h
          · cases h
          · rename_i hne
            cases h
            exact Bool.eq_false_iff.mpr hne

theorem extractOpencodeMsg_some {v : Json} {m : TMsg}
    (h : extractOpencodeMsg v = some m) : (trimStr m.text).isEmpty = false := by
  rw [extractOpencodeMsg] at h
  split at h
  · cases h
  · split at h
    · cases h
    · split at h
      · cases h
      · split at h
        · cases h
        · split at h
          · cases h
          · dsimp only [] at h
            split at h
            · cases h
            · rename_i hne
              cases h
              cases hch : opencodeChunks
                  (((v.getF (strOf ("parts"))).bind Json.asArr).getD []) with
              | nil => rw [hch] at hne; simp at hne
              | cons t rest =>
                refine intercalate_trim_nonempty rest ?_
                refine opencodeChunks_mem
                  (((v.getF (strOf ("parts"))).bind Json.asArr).getD []) t ?_
                rw [hch]
                exact List.mem_cons_self _ _

theorem ampMsgLoop_mem (msgs : List Json) :
    ∀ m ∈ ampMsgLoop msgs, (trimStr m.text).isEmpty = false := by
  induction msgs with
  | nil => intro m hm; simp [ampMsgLoop] at hm
  | cons message rest ih =>
    intro m hm
    rw [ampMsgLoop] at hm
    split at hm
    · exact ih m hm
    · dsimp only [] at hm
      split at hm
      · exact ih m hm
      · rename_i hne
        rcases List.mem_cons.mp hm with h | h
        · subst h
          exact Bool.eq_false_iff.mpr hne
        · exact ih m h

theorem extractLoop_mem (fromStr : JParse) (provider : TProvider)
    (path : Str) (lines : List Str) :
    ∀ (idx : Nat) (msgs : List TMsg),
      extractLoop fromStr provider path idx lines = .ok msgs →
        ∀ m ∈ msgs, (trimStr m.text).isEmpty = false := by
  induction lines with
  | nil =>
    intro idx msgs h m hm
    rw [extractLoop] at h
    cases h
    simp at hm
  | cons line rest ih =>
    intro idx msgs h m hm
    rw [extractLoop] at h
    dsimp only [] at h
    split at h
    · exact ih (idx + 1) msgs h m hm
    · split at h
      · cases h
      · rename_i value hval
        split at h
        · rename_i m0 hm0
          cases hrec : extractLoop fromStr provider path (idx + 1) rest with
          | error e => rw [hrec] at h; cases h
          | ok msgs0 =>
            rw [hrec] at h
            cases h
            rcases List.mem_cons.mp hm with hmm | hmm
            · subst hmm
              cases provider with
              | amp => cases hm0
              | codex => exact extractCodexMsg_some hm0
              | claude => exact extractClaudeMsg_some hm0
              | opencode => exact extractOpencodeMsg_some hm0
            · exact ih (idx + 1) msgs0 hrec m hmm
        · exact ih (idx + 1) msgs h m hm

theorem toolTypes_props {t : Str} (h : toolTypes.contains t = true) :
    t ≠ strOf ("text") ∧ t ≠ strOf ("reasoning") ∧ t ≠ strOf ("thinking") ∧
      t ≠ strOf ("message") ∧ t ≠ strOf ("user") ∧
      t ≠ strOf ("assistant") ∧ t ≠ strOf ("response_item") ∧
      t ≠ strOf ("event_msg") ∧ t ≠ strOf ("agent_message") := by
  have hm : t ∈ toolTypes := by simpa using h
  rw [toolTypes] at hm
  simp only [List.mem_cons, List.not_mem_nil, or_false] at hm
  rcases hm with h | h | h | h | h | h
  all_goals subst h
  all_goals refine ⟨?_, ?_, ?_, ?_, ?_, ?_, ?_, ?_, ?_⟩ <;> decide

theorem isToolItem_some {item : Json} (h : isToolItem item = true) :
    ∃ t, getStr item (strOf ("type")) = some t ∧
      toolTypes.contains t = true := by
  rw [isToolItem] at h
  split at h
  · rename_i t hg
    exact ⟨t, hg, h⟩
  · cases h

theorem textChunks_filter (items : List Json) :
    textChunks (items.filter (fun i => !isToolItem i)) = textChunks items := by
  induction items with
  | nil => rfl
  | cons item rest ih =>
    by_cases ht : isToolItem item
    · rw [List.filter_cons, if_neg (by simp [ht]), ih]
      conv_rhs => rw [textChunks]
      rw [if_pos ht]
    · rw [List.filter_cons, if_pos (by simp [ht])]
      rw [textChunks, textChunks, if_neg ht, if_neg ht]
      rcases h1 : trimmedField item (strOf ("text")) with _ | t1
      · rcases h2 : trimmedField item (strOf ("input_text")) with _ | t2
        · rcases h3 : trimmedField item (strOf ("output_text")) with _ | t3
          · simp only [h1, h2, h3]; exact ih
          · simp only [h1, h2, h3]; rw [ih]
        · simp only [h1, h2]; rw [ih]
      · simp only [h1]; rw [ih]

theorem opencodeChunks_filter (parts : List Json) :
    opencodeChunks (parts.filter (fun i => !isToolItem i)) =
      opencodeChunks parts := by
  induction parts with
  | nil => rfl
  | cons part rest ih =>
    by_cases ht : isToolItem part
    · obtain ⟨t, hgt, hct⟩ := isToolItem_some ht
      obtain ⟨hn1, hn2, _⟩ := toolTypes_props hct
      rw [List.filter_cons, if_neg (by simp [ht]), ih]
      conv_rhs => rw [opencodeChunks]
      simp only [hgt]
      rw [if_pos ⟨hn1, hn2⟩]
    · rw [List.filter_cons, if_pos (by simp [ht])]
      rw [opencodeChunks, opencodeChunks]
      rcases hg : getStr part (strOf ("type")) with _ | pt
      · simp only [hg]; exact ih
      · simp only [hg]
        by_cases hc : pt ≠ strOf ("text") ∧ pt ≠ strOf ("reasoning")
        · rw [if_pos hc, if_pos hc]; exact ih
        · rw [if_neg hc, if_neg hc]
          rcases hgt : getStr part (strOf ("text")) with _ | t0
          · simp only [hgt]; exact ih
          · simp only [hgt]
            by_cases hne : (trimStr t0).isEmpty
            · simp only [hne, Bool.not_true, if_neg]
              simp
              exact ih
            · have hb : (!(trimStr t0).isEmpty) = true := by
                rw [Bool.eq_false_iff.mpr hne]
                rfl
              rw [if_pos hb, if_pos hb, ih]

theorem ampChunks_filter (items : List Json) :
    ampChunks (items.filter (fun i => !isToolItem i)) = ampChunks items := by
  induction items with
  | nil => rfl
  | cons item rest ih =>
    by_cases ht : isToolItem item
    · obtain ⟨t, hgt, hct⟩ := isToolItem_some ht
      obtain ⟨hn1, _, hn3, _⟩ := toolTypes_props hct
      rw [List.filter_cons, if_neg (by simp [ht]), ih]
      conv_rhs => rw [ampChunks]
      simp only [hgt]
      rw [if_neg hn1, if_neg hn3]
    · rw [List.filter_cons, if_pos (by simp [ht])]
      rw [ampChunks, ampChunks]
      rcases hg : getStr item (strOf ("type")) with _ | it
      · simp only [hg]; exact ih
      · simp only [hg]
        by_cases hc1 : it = strOf ("text")
        · rw [if_pos hc1, if_pos hc1]
          rcases hf : trimmedField item (strOf ("text")) with _ | t0
          · simp only [hf]; exact ih
          · simp only [hf]; rw [ih]
        · rw [if_neg hc1, if_neg hc1]
          by_cases hc2 : it = strOf ("thinking")
          · rw [if_pos hc2, if_pos hc2]
            rcases hf : trimmedField item (strOf ("thinking")) with _ | t0
            · simp only [hf]; exact ih
            · simp only [hf]; rw [ih]
          · rw [if_neg hc2, if_neg hc2]; exact ih

theorem toolRecord_none {v : Json} {t : Str}
    (hg : getStr v (strOf ("type")) = some t)
    (hc : toolTypes.contains t = true) :
    extractCodexMsg v = none ∧ extractClaudeMsg v = none ∧
      extractOpencodeMsg v = none := by
  obtain ⟨h1, h2, h3, h4, h5, h6, h7, h8, h9⟩ := toolTypes_props hc
  refine ⟨?_, ?_, ?_⟩
  · rw [extractCodexMsg]
    simp only [hg]
    rw [if_neg h7, if_neg (fun hA => h8 hA.1)]
  · rw [extractClaudeMsg]
    simp only [hg]
    rw [if_pos ⟨h5, h6⟩]
  · rw [extractOpencodeMsg]
    simp only [hg]
    rw [if_pos h4]

theorem codexToolPayload_none {v payload : Json} {t : Str}
    (hp : v.getF (strOf ("payload")) = some payload)
    (hpt : getStr payload (strOf ("type")) = some t)
    (hc : toolTypes.contains t = true) : extractCodexMsg v = none := by
  obtain ⟨-, -, -, h4, -, -, -, -, h9⟩ := toolTypes_props hc
  rw [extractCodexMsg]
  cases hg : getStr v (strOf ("type")) with
  | none => simp only [hg]
  | some rt =>
    simp only [hg]
    by_cases hr : rt = strOf ("response_item")
    · rw [if_pos hr]
      simp only [hp, hpt]
      rw [if_pos h4]
    · rw [if_neg hr]
      have hcond : ¬(rt = strOf ("event_msg") ∧
          ((v.getF (strOf ("payload"))).bind
              (fun p => getStr p (strOf ("type")))) =
            some (strOf ("agent_message"))) := by
        intro hA
        have hb := hA.2
        rw [hp] at hb
        simp only [Option.some_bind] at hb
        rw [hpt] at hb
        injection hb with hb2
        exact h9 hb2
      rw [if_neg hcond]

/-- Claim C3: extraction output never has a message whose text is blank
after trimming and only carries user/assistant roles; removing
tool-typed content parts does not change any provider's collected chunks
(so no chunk, hence no message, originates from one); a record typed with
any TOOL_TYPES entry extracts to none for every line-based provider; a
codex record whose payload is typed with any TOOL_TYPES entry (the
response_item function/tool-call shape) extracts to none whatever its
top-level type; and multi-part content is joined with a blank-line
separator. -/
theorem c3_extraction :
    (∀ (fromStr : JParse) (provider : TProvider) (path raw : Str)
      (msgs : List TMsg),
      extractMessagesR fromStr provider path raw = .ok msgs →
        ∀ m ∈ msgs, (trimStr m.text).isEmpty = false ∧
          (m.role = .user ∨ m.role = .assistant)) ∧
    (∀ items : List Json,
      textChunks (items.filter (fun i => !isToolItem i)) =
        textChunks items) ∧
    (∀ parts : List Json,
      opencodeChunks (parts.filter (fun i => !isToolItem i)) =
        opencodeChunks parts) ∧
    (∀ items : List Json,
      ampChunks (items.filter (fun i => !isToolItem i)) = ampChunks items) ∧
    (∀ (v : Json) (t : Str), getStr v (strOf ("type")) = some t →
      toolTypes.contains t = true →
        extractCodexMsg v = none ∧ extractClaudeMsg v = none ∧
          extractOpencodeMsg v = none) ∧
    (∀ (v payload : Json) (t : Str),
      v.getF (strOf ("payload")) = some payload →
        getStr payload (strOf ("type")) = some t →
          toolTypes.contains t = true →
            extractCodexMsg v = none) ∧
    (∀ items : List Json, extractTextR (some (.arr items)) =
      List.intercalate (strOf ("\n\n")) (textChunks items)) ∧
    (∀ items : List Json, extractAmpText (some (.arr items)) =
      List.intercalate (strOf ("\n\n")) (ampChunks items)) := by
  refine ⟨?_, textChunks_filter, opencodeChunks_filter, ampChunks_filter,
    fun v t => toolRecord_none,
    fun v payload t hp hpt hc => codexToolPayload_none hp hpt hc,
    fun items => rfl, fun items => rfl⟩
  intro fromStr provider path raw msgs h m hm
  constructor
  · rw [extractMessagesR] at h
    by_cases hp : provider = .amp
    · rw [if_pos hp] at h
      rw [extractAmpMessages] at h
      split at h
      · cases h
      · cases h
        exact ampMsgLoop_mem _ m hm
    · rw [if_neg hp] at h
      exact extractLoop_mem fromStr provider path (linesOf raw) 0 msgs h m hm
  · cases m.role
    · exact Or.inl rfl
    · exact Or.inr rfl

/-- Witness for C3: a concrete claude document extracts one assistant
message with non-blank text, a tool_use record extracts to none, and a
codex response_item record with a function_call payload extracts to
none. -/
theorem c3_witness :
    extractMessagesR c3Parse .claude [] c3Line =
      .ok [⟨.assistant, strOf ("hi")⟩] ∧
    (trimStr (strOf ("hi"))).isEmpty = false ∧
    (MRole.assistant = MRole.user ∨ MRole.assistant = MRole.assistant) ∧
    extractCodexMsg (.obj [(strOf ("type"), .str (strOf ("tool_use")))]) =
      none ∧
    extractCodexMsg (.obj [(strOf ("type"), .str (strOf ("response_item"))),
      (strOf ("payload"), .obj [(strOf ("type"),
        .str (strOf ("function_call")))])]) = none :=
  ⟨by decide,
    (c3_extraction.1 c3Parse .claude [] c3Line [⟨.assistant, strOf ("hi")⟩]
      (by decide) ⟨.assistant, strOf ("hi")⟩ (by simp)).1,
    (c3_extraction.1 c3Parse .claude [] c3Line [⟨.assistant, strOf ("hi")⟩]
      (by decide) ⟨.assistant, strOf ("hi")⟩ (by simp)).2,
    (c3_extraction.2.2.2.2.1 (.obj [(strOf ("type"),
        .str (strOf ("tool_use")))]) (strOf ("tool_use")) (by decide)
      (by decide)).1,
    c3_extraction.2.2.2.2.2.1
      (.obj [(strOf ("type"), .str (strOf ("response_item"))),
        (strOf ("payload"), .obj [(strOf ("type"),
          .str (strOf ("function_call")))])])
      (.obj [(strOf ("type"), .str (strOf ("function_call")))])
      (strOf ("function_call")) rfl (by decide) (by decide)⟩

theorem hexDigitsBE_length : ∀ (k n : Nat), (hexDigitsBE k n).length = k := by
  intro k
  induction k with
  | zero => intro n; rfl
  | succ k ih =>
    intro n
    rw [hexDigitsBE, List.length_append, ih]
    simp

theorem hexChar_inj {d e : Nat} (hd : d < 16) (he : e < 16)
    (h : hexChar d = hexChar e) : d = e := by
  have hx := congrArg Char.toNat h
  rw [hexChar, hexChar] at hx
  by_cases h1 : d < 10 <;> by_cases h2 : e < 10
  · rw [if_pos h1, if_pos h2, char_toNat_ofNat (by left; omega),
      char_toNat_ofNat (by left; omega)] at hx
    omega
  · rw [if_pos h1, if_neg h2, char_toNat_ofNat (by left; omega),
      char_toNat_ofNat (by left; omega)] at hx
    omega
  · rw [if_neg h1, if_pos h2, char_toNat_ofNat (by left; omega),
      char_toNat_ofNat (by left; omega)] at hx
    omega
  · rw [if_neg h1, if_neg h2, char_toNat_ofNat (by left; omega),
      char_toNat_ofNat (by left; omega)] at hx
    omega

theorem hexDigitsBE_inj : ∀ (k a b : Nat), a < 16 ^ k → b < 16 ^ k →
    hexDigitsBE k a = hexDigitsBE k b → a = b := by
  intro k
  induction k with
  | zero =>
    intro a b ha hb _
    simp [Nat.pow_zero] at ha hb
    omega
  | succ k ih =>
    intro a b ha hb h
    rw [hexDigitsBE, hexDigitsBE] at h
    have hlen : (hexDigitsBE k (a / 16)).length =
        (hexDigitsBE k (b / 16)).length := by
      rw [hexDigitsBE_length, hexDigitsBE_length]
    obtain ⟨hpre, hlast⟩ := List.append_inj h hlen
    have hda : a / 16 < 16 ^ k := by
      rw [Nat.pow_succ] at ha
      omega
    have hdb : b / 16 < 16 ^ k := by
      rw [Nat.pow_succ] at hb
      omega
    have hdiv := ih (a / 16) (b / 16) hda hdb hpre
    have hmod : a % 16 = b % 16 :=
      hexChar_inj (Nat.mod_lt _ (by omega)) (Nat.mod_lt _ (by omega))
        (by injection hlast)
    omega

theorem xor64_lt (a b : Nat) : xor64 a b < 2 ^ 64 :=
  Nat.mod_lt _ (by norm_num)

theorem rootHash64_lt (r : List Nat) : rootHash64 r < 2 ^ 64 := by
  rw [rootHash64, sip13]
  exact xor64_lt _ _

theorem hexPad16_inj {a b : Nat} (ha : a < 2 ^ 64) (hb : b < 2 ^ 64)
    (h : hexPad16 a = hexPad16 b) : a = b := by
  have h16 : (16 : Nat) ^ 16 = 2 ^ 64 := by norm_num
  exact hexDigitsBE_inj 16 a b (by omega) (by omega) h

/-- Claim C5 (amended): a successful opencode resolution materializes to the
path determined purely by the root bytes and session id, with content that
is exactly the deterministic rendering of the fetched database rows — so an
unchanged database gives byte-identical repeated writes at the same path;
and equal materialized paths force equal 64-bit root hashes and equal
session ids. Isolation as originally claimed is false: the hash is 64 bits
wide, so two distinct roots can collide (see the counterexample). -/
theorem c5_materialization :
    (∀ (fromStr : JParse) (env : OcEnv) (sid : Str) (db : OcDb),
      env.db = some db → db.sessions.contains sid = true →
        ocResolve fromStr env sid =
          .ok (⟨.opencode, sid, materializedPath env.rootBytes sid,
            ⟨strOf ("opencode:sqlite"), 1,
              (ocFetchMessages fromStr db sid).2 ++
                (ocFetchParts fromStr db sid).2⟩⟩,
            (materializedPath env.rootBytes sid,
              ocRenderJsonl sid (ocFetchMessages fromStr db sid).1
                (ocFetchParts fromStr db sid).1))) ∧
    (∀ (r1 r2 : List Nat) (s1 s2 : Str),
      materializedPath r1 s1 = materializedPath r2 s2 →
        rootHash64 r1 = rootHash64 r2 ∧ s1 = s2) := by
  constructor
  · intro fromStr env sid db hdb hc
    rw [ocResolve.eq_def, hdb]
    simp only [hc]
    rfl
  · intro r1 r2 s1 s2 h
    rw [materializedPath, materializedPath, tempDirComponents] at h
    simp only [List.cons_append, List.nil_append, List.cons.injEq,
      and_true, true_and] at h
    obtain ⟨hhex, hname⟩ := h
    refine ⟨hexPad16_inj (rootHash64_lt r1) (rootHash64_lt r2) hhex, ?_⟩
    exact List.append_cancel_right hname

/-- Witness for C5 on the concrete opencode environment, plus the trivial
same-root instance of the path-collision clause. -/
theorem c5_witness :
    ocResolve ocParseW ocEnvW (strOf ("ses_a1")) =
      .ok (⟨.opencode, strOf ("ses_a1"),
        materializedPath ocEnvW.rootBytes (strOf ("ses_a1")),
        ⟨strOf ("opencode:sqlite"), 1,
          (ocFetchMessages ocParseW ocDbW (strOf ("ses_a1"))).2 ++
            (ocFetchParts ocParseW ocDbW (strOf ("ses_a1"))).2⟩⟩,
        (materializedPath ocEnvW.rootBytes (strOf ("ses_a1")),
          ocRenderJsonl (strOf ("ses_a1"))
            (ocFetchMessages ocParseW ocDbW (strOf ("ses_a1"))).1
            (ocFetchParts ocParseW ocDbW (strOf ("ses_a1"))).1)) ∧
    (rootHash64 [97] = rootHash64 [97] ∧ strOf ("s") = strOf ("s")) :=
  ⟨c5_materialization.1 ocParseW ocEnvW (strOf ("ses_a1")) ocDbW rfl
      (by decide),
    c5_materialization.2 [97] [97] (strOf ("s")) (strOf ("s")) rfl⟩

/-- Counterexample to claim C5 as stated: by pigeonhole over the 64-bit
hash, two distinct roots share a materialized path for the same session
id. -/
theorem c5_counterexample :
    ∃ r1 r2 : List Nat, r1 ≠ r2 ∧
      materializedPath r1 (strOf ("s")) = materializedPath r2 (strOf ("s")) := by
  obtain ⟨a, b, hne, heq⟩ := Finite.exists_ne_map_eq_of_infinite
    (fun n : Nat => (⟨rootHash64 (List.replicate n 97), rootHash64_lt _⟩ :
      Fin (2 ^ 64)))
  refine ⟨List.replicate a 97, List.replicate b 97, ?_, ?_⟩
  · intro h
    have hl := congrArg List.length h
    simp at hl
    exact hne hl
  · have hh : rootHash64 (List.replicate a 97) =
        rootHash64 (List.replicate b 97) := congrArg Fin.val heq
    rw [materializedPath, materializedPath, hh]
